import Mathlib

/-!
# Verification of the go-medialibrary media lifecycle orchestrator

A shallow embedding of the core of the `vortechron/go-medialibrary`
repository: the media record data model, the default path generator,
the conversion / responsive-image generation loops, the ingestion,
copy and move operations, and the URL resolution helpers.

Effectful collaborators (storage backends, the metadata repository, the
image transformer, MIME sniffing) are modelled as pure oracles collected
in an `Env` record, together with an explicit `Store` state holding the
objects written to the storage backends.  Byte strings are `List Nat`,
decoded images are abstract tokens (`Nat`).  The `json.RawMessage`
fields of a media record are modelled as `Option Json`: `none` stands
for a nil or unparseable byte slice, `some j` for bytes that parse to
the JSON value `j`.  Go's `json.Unmarshal` into the concrete Go target
types used by the source is modelled by total functions returning
`Option` (failure = Go's non-nil unmarshal error).

Go's `path/filepath` string helpers (`Clean`, `Ext`, `Base`) and
`strings.TrimSuffix` / `fmt.Sprintf("%d", _)` are implemented over
`List Char` so that the path-derivation facts can be proved by list
induction.
-/

namespace MediaLib

/-! ## Go string helpers -/

/-- Split a character list on `'/'` (the segment view used by
`filepath.Clean`).  `splitSlash [] = [[]]`, mirroring the fact that the
empty string has one empty segment. -/
def splitSlash : List Char → List (List Char)
  | [] => [[]]
  | c :: cs =>
    if c = '/' then [] :: splitSlash cs
    else
      match splitSlash cs with
      | [] => [[c]]
      | s :: ss => (c :: s) :: ss

/-- Join segments with `'/'`; inverse of `splitSlash`. -/
def joinSlash : List (List Char) → List Char
  | [] => []
  | [s] => s
  | s :: ss => s ++ '/' :: joinSlash ss

/-- One step of `filepath.Clean`'s segment processing.  `acc` is the
output stack (in reverse).  Empty and `"."` segments are dropped;
`".."` pops a previous real segment, is kept at the start of a relative
path, and is dropped at the root of an absolute path. -/
def cleanPush (rooted : Bool) (acc : List (List Char)) (seg : List Char) : List (List Char) :=
  if seg = [] ∨ seg = ['.'] then acc
  else if seg = ['.', '.'] then
    match acc with
    | [] => if rooted then [] else [seg]
    | t :: rest => if t = ['.', '.'] then seg :: acc else rest
  else seg :: acc

/-- `filepath.Clean` on a character list. -/
def goCleanChars (cs : List Char) : List Char :=
  if cs = [] then ['.']
  else
    let rooted := cs.head? = some '/'
    let out := (splitSlash cs).foldl (cleanPush rooted) []
    let body := joinSlash out.reverse
    if rooted then '/' :: body
    else if body = [] then ['.']
    else body

/-- Go's `filepath.Clean`. -/
def goClean (s : String) : String := ⟨goCleanChars s.data⟩

/-- Backward scan used by `filepath.Ext`: `l` is the reversed path,
`acc` the already-scanned tail in original order.  Stops at the first
`'.'` (returning the extension including the dot) or `'/'` (no
extension in the final path element). -/
def extScan : List Char → List Char → List Char
  | [], _ => []
  | c :: rest, acc =>
    if c = '/' then []
    else if c = '.' then c :: acc
    else extScan rest (c :: acc)

/-- Go's `filepath.Ext`. -/
def goExt (s : String) : String := ⟨extScan s.data.reverse []⟩

/-- Go's `strings.TrimSuffix` on character lists. -/
def trimSuffixList (cs suf : List Char) : List Char :=
  if suf <:+ cs then cs.take (cs.length - suf.length) else cs

/-- Go's `strings.TrimSuffix`. -/
def goTrimSuffix (s suf : String) : String := ⟨trimSuffixList s.data suf.data⟩

/-- Go's `filepath.Base`: `""` gives `"."`, trailing slashes are
dropped, a path of only slashes gives `"/"`, otherwise the part after
the last slash. -/
def goBase (s : String) : String :=
  if s.data = [] then "."
  else
    let cs := (s.data.reverse.dropWhile (fun c => c = '/')).reverse
    if cs = [] then "/"
    else ⟨(cs.reverse.takeWhile (fun c => c ≠ '/')).reverse⟩

/-- ASCII lower-casing, modelling `strings.ToLower` on the extension
strings that reach it. -/
def goToLower (s : String) : String := ⟨s.data.map Char.toLower⟩

/-- Decimal digit character. -/
def digitChar (d : Nat) : Char := Char.ofNat (48 + d)

/-- Decimal rendering of a positive `Nat`, structurally recursive on a
fuel argument so that it reduces inside the kernel;
`natToCharsAux fuel 0 = []`, and `fuel ≥ n` makes the fuel
inexhaustible. -/
def natToCharsAux : Nat → Nat → List Char
  | 0, _ => []
  | _, 0 => []
  | fuel + 1, n + 1 =>
    natToCharsAux fuel ((n + 1) / 10) ++ [digitChar ((n + 1) % 10)]

/-- Big-endian decimal digits of `n`; `natToCharsCore 0 = []`. -/
def natToCharsCore (n : Nat) : List Char := natToCharsAux n n

/-- `fmt.Sprintf("%d", n)` for an unsigned value. -/
def natToString (n : Nat) : String :=
  if n = 0 then "0" else ⟨natToCharsCore n⟩

/-- `fmt.Sprintf("%d", i)` for a Go `int`. -/
def intToString (i : Int) : String :=
  if i < 0 then "-" ++ natToString i.natAbs else natToString i.natAbs

/-! ## JSON values and the unmarshal / marshal operations used by the source -/

/-- A parsed JSON value.  Numbers are integers, which covers every
value the library itself writes. -/
inductive Json where
  | null
  | bool (b : Bool)
  | num (n : Int)
  | str (s : String)
  | arr (elems : List Json)
  | obj (fields : List (String × Json))

/-- A `json.RawMessage`: `none` is a nil or unparseable byte slice. -/
abbrev RawMessage := Option Json

/-- Option-valued map over a list, failing when any element fails
(the shape of Go's `json.Unmarshal` loops over objects and arrays). -/
def mapOptionA {α β : Type} (f : α → Option β) : List α → Option (List β)
  | [] => some []
  | x :: xs =>
    match f x with
    | none => none
    | some y => (mapOptionA f xs).map fun ys => y :: ys

/-- Association-list lookup with a Go-map default. -/
def lookupD {α : Type} (l : List (String × α)) (k : String) (d : α) : α :=
  match l.lookup k with
  | some v => v
  | none => d

/-- Association-list insert-or-replace, modelling Go map assignment. -/
def insertA {α : Type} : List (String × α) → String → α → List (String × α)
  | [], k, v => [(k, v)]
  | (k', v') :: rest, k, v =>
    if k' = k then (k, v) :: rest else (k', v') :: insertA rest k v

/-- `json.Unmarshal` into `map[string]bool`.  JSON `null` leaves the
map empty without an error, as in Go. -/
def unmarshalBoolMap : Json → Option (List (String × Bool))
  | .null => some []
  | .obj fields =>
    mapOptionA (fun kv =>
      match kv.2 with
      | .bool b => some (kv.1, b)
      | _ => none) fields
  | _ => none

/-- `json.Unmarshal` into `map[string]map[string]bool`. -/
def unmarshalNestedBoolMap : Json → Option (List (String × List (String × Bool)))
  | .null => some []
  | .obj fields =>
    mapOptionA (fun kv => (unmarshalBoolMap kv.2).map fun l => (kv.1, l)) fields
  | _ => none

/-- `json.Unmarshal` into `[]int`. -/
def unmarshalIntList : Json → Option (List Int)
  | .null => some []
  | .arr es =>
    mapOptionA (fun e =>
      match e with
      | .num n => some n
      | _ => none) es
  | _ => none

/-- `json.Unmarshal` into `map[string][]int`. -/
def unmarshalWidthsMap : Json → Option (List (String × List Int))
  | .null => some []
  | .obj fields =>
    mapOptionA (fun kv => (unmarshalIntList kv.2).map fun l => (kv.1, l)) fields
  | _ => none

/-- `json.Unmarshal` into `map[string]map[string][]int`, the target
type used by `GetURLForResponsiveImage`. -/
def unmarshalRespWidths : Json → Option (List (String × List (String × List Int)))
  | .null => some []
  | .obj fields =>
    mapOptionA (fun kv => (unmarshalWidthsMap kv.2).map fun l => (kv.1, l)) fields
  | _ => none

/-- Unmarshal a raw message into `map[string]bool`; a nil slice is an
unmarshal error in Go. -/
def unmarshalBoolMapRaw (raw : RawMessage) : Option (List (String × Bool)) :=
  match raw with
  | none => none
  | some j => unmarshalBoolMap j

/-- Unmarshal a raw message into `map[string]map[string][]int`. -/
def unmarshalRespWidthsRaw (raw : RawMessage) :
    Option (List (String × List (String × List Int))) :=
  match raw with
  | none => none
  | some j => unmarshalRespWidths j

/-- `json.Marshal` of a `map[string]bool`; in Go this cannot fail for
this type.  (Go sorts the keys; key order is irrelevant to every
lookup performed by the library, so insertion order is kept.) -/
def marshalBoolMap (l : List (String × Bool)) : Json :=
  .obj (l.map fun kv => (kv.1, Json.bool kv.2))

/-- `json.Marshal` of a `map[string]map[string]bool`. -/
def marshalNestedBoolMap (l : List (String × List (String × Bool))) : Json :=
  .obj (l.map fun kv => (kv.1, marshalBoolMap kv.2))

/-- The read of `media.GeneratedConversions` performed by
`PerformConversions`: a nil/empty slice or an unmarshal failure falls
back to a fresh empty map. -/
def readBoolMapFresh (raw : RawMessage) : List (String × Bool) :=
  match raw with
  | none => []
  | some j => (unmarshalBoolMap j).getD []

/-- The read of `media.ResponsiveImages` performed by
`GenerateResponsiveImages`, with the same fresh-map fallback. -/
def readNestedBoolMapFresh (raw : RawMessage) : List (String × List (String × Bool)) :=
  match raw with
  | none => []
  | some j => (unmarshalNestedBoolMap j).getD []

/-! ## The media record -/

/-- `models.Media`.  The UUID is an abstract token, timestamps are
abstract instants supplied by the environment; both are irrelevant to
content but kept so mutation points of the source are visible. -/
structure Media where
  id : Nat
  modelType : String
  modelId : Nat
  uuid : Nat
  collectionName : String
  name : String
  fileName : String
  mimeType : String
  disk : String
  conversionsDisk : String
  size : Nat
  manipulations : RawMessage
  customProperties : RawMessage
  generatedConversions : RawMessage
  responsiveImages : RawMessage
  orderColumn : Option Int
  updatedAt : Nat

/-! ## Path generation (`DefaultPathGenerator`) -/

/-- `getBasePath`: `fmt.Sprintf("%s/%d/", p.prefix, media.ID)`. -/
def getBasePath (pathPrefix : String) (media : Media) : String :=
  pathPrefix ++ "/" ++ natToString media.id ++ "/"

/-- `GetPath`: `cleanPath(fmt.Sprintf("%s/%s", basePath, fileName))`. -/
def getPath (pathPrefix : String) (media : Media) : String :=
  goClean (getBasePath pathPrefix media ++ "/" ++ media.fileName)

/-- `GetPathForConversion`. -/
def getPathForConversion (pathPrefix : String) (media : Media) (conversionName : String) : String :=
  let ext := goExt media.fileName
  let basename := goTrimSuffix media.fileName ext
  goClean (getBasePath pathPrefix media ++ "/" ++ conversionName ++ "/conversions/" ++
    (basename ++ "-" ++ conversionName ++ ext))

/-- `GetPathForResponsiveImage`. -/
def getPathForResponsiveImage (pathPrefix : String) (media : Media) (conversionName : String)
    (width : Int) : String :=
  let ext := goExt media.fileName
  let basename := goTrimSuffix media.fileName ext
  goClean (getBasePath pathPrefix media ++ "/" ++ conversionName ++ "/responsive-images/" ++
    (basename ++ "-" ++ conversionName ++ "-" ++ intToString width ++ ext))

/-! ## Environment, storage state, events -/

/-- Byte strings. -/
abbrev Bytes := List Nat

/-- Decoded in-memory images, abstract. -/
abbrev Image := Nat

/-- A registered responsive-image recipe
(`conversion.ResponsiveConversion`; the per-recipe transform options are
irrelevant to the orchestrator's bookkeeping and omitted). -/
structure ResponsiveConversion where
  widths : List Int

/-- The pure oracles standing for the effectful collaborators: the disk
registry, URL synthesis, MIME sniffing, image decoding, the transformer,
failure injection for the storage/repository calls, the repository's ID
assignment, UUID generation, URL parsing, the local filesystem and the
clock.  The encode step (`png`/`gif`/`jpeg` encoders feeding the store
through a pipe) is folded into the per-call byte result; an encode error
surfaces as a failed store, as it does through the pipe in the source. -/
structure Env where
  disks : List String
  urlFor : String → String → String
  sniffMime : Bytes → Option String
  decodeImage : Bytes → Option Image
  transform : String → Option Int → Image → Option Image
  responsiveConversions : List (String × ResponsiveConversion)
  encodePNG : Image → Bytes
  encodeGIF : Image → Bytes
  encodeJPEG : Image → Bytes
  saveFails : String → String → Bool
  saveFromURLFails : String → String → Bool
  deleteFails : String → String → Bool
  repoSaveFails : Media → Bool
  nextId : Nat
  freshUUID : Nat
  parseURLPath : String → Option String
  urlContent : String → Bytes
  localFile : String → Option Bytes
  now : Nat

/-- Registered-disk lookup (`DiskManager.GetDisk` succeeds iff the name
is registered). -/
def hasDisk (env : Env) (name : String) : Bool := env.disks.contains name

/-- The storage backends' contents: `(disk, path) ↦ bytes`. -/
abbrev Store := List ((String × String) × Bytes)

/-- `disk.Get` / `disk.Exists` (a missing object is a failed `Get`). -/
def storeGet (st : Store) (disk path : String) : Option Bytes :=
  st.lookup (disk, path)

/-- A successful `disk.Save`. -/
def storeSet : Store → String → String → Bytes → Store
  | [], disk, path, b => [((disk, path), b)]
  | e :: rest, disk, path, b =>
    if e.1 = (disk, path) then ((disk, path), b) :: rest
    else e :: storeSet rest disk path b

/-- A successful `disk.Delete` (idempotent). -/
def storeDel (st : Store) (disk path : String) : Store :=
  st.filter fun e => ¬ e.1 = (disk, path)

/-- Observable calls made against the collaborators during one
operation, in order. -/
inductive Event where
  | transformCall (name : String) (width : Option Int)
  | storeSave (disk path : String) (ok : Bool)
  | storeSaveFromURL (disk path : String) (ok : Bool)
  | storeDelete (disk path : String)
  | repoSave (ok : Bool)
deriving DecidableEq, Repr

/-- The error outcomes of the orchestrator operations (the `fmt.Errorf`
wrappers of the source, by failure site). -/
inductive OpError where
  | invalidURL
  | openFailed
  | diskNotFound
  | sourceDiskNotFound
  | conversionsDiskNotFound
  | targetDiskNotFound
  | sourceNotFound
  | getFailed
  | verifyFailed
  | decodeFailed
  | repoSaveFailed
  | storeFailed
  | deleteFailed
deriving DecidableEq, Repr

/-- `getMimeTypeFromExtension`. -/
def getMimeTypeFromExtension (ext : String) : String :=
  let e := goToLower ext
  if e = ".jpg" ∨ e = ".jpeg" then "image/jpeg"
  else if e = ".png" then "image/png"
  else if e = ".gif" then "image/gif"
  else if e = ".webp" then "image/webp"
  else if e = ".svg" then "image/svg+xml"
  else if e = ".mp4" then "video/mp4"
  else if e = ".webm" then "video/webm"
  else if e = ".mp3" then "audio/mpeg"
  else if e = ".pdf" then "application/pdf"
  else "application/octet-stream"

/-- `getMimeTypeFromContent` with the source's fall-back to
extension-based detection on a sniffing error. -/
def detectMime (env : Env) (content : Bytes) (fileName : String) : String :=
  match env.sniffMime content with
  | some m => m
  | none => getMimeTypeFromExtension (goExt fileName)

/-- The encoder selection switch on `filepath.Ext(media.FileName)`:
`.png` → PNG encoder, `.gif` → GIF encoder, default → JPEG at quality
90 (the fixed quality is inside the oracle). -/
def encodeForFile (env : Env) (fileName : String) (img : Image) : Bytes :=
  if goExt fileName = ".png" then env.encodePNG img
  else if goExt fileName = ".gif" then env.encodeGIF img
  else env.encodeJPEG img

/-! ## PerformConversions / GenerateResponsiveImages -/

/-- Result of a conversion-generation call.  The media record is
returned even on error because the source mutates it in place. -/
structure ConvResult where
  media : Media
  store : Store
  events : List Event
  error : Option OpError

/-- The per-name loop of `PerformConversions`: skip names already in
the index, transform, store, and mark on success; a transform or store
failure is logged and the loop continues. -/
def performConversionsLoop (env : Env) (pathPrefix : String) (media : Media) (img : Image) :
    List String → List (String × Bool) → Store →
    List (String × Bool) × Store × List Event
  | [], gc, st => (gc, st, [])
  | name :: rest, gc, st =>
    if lookupD gc name false then
      performConversionsLoop env pathPrefix media img rest gc st
    else
      match env.transform name none img with
      | none =>
        let r := performConversionsLoop env pathPrefix media img rest gc st
        (r.1, r.2.1, Event.transformCall name none :: r.2.2)
      | some timg =>
        let cpath := getPathForConversion pathPrefix media name
        if env.saveFails media.conversionsDisk cpath then
          let r := performConversionsLoop env pathPrefix media img rest gc st
          (r.1, r.2.1,
            Event.transformCall name none ::
              Event.storeSave media.conversionsDisk cpath false :: r.2.2)
        else
          let st1 := storeSet st media.conversionsDisk cpath (encodeForFile env media.fileName timg)
          let r := performConversionsLoop env pathPrefix media img rest (insertA gc name true) st1
          (r.1, r.2.1,
            Event.transformCall name none ::
              Event.storeSave media.conversionsDisk cpath true :: r.2.2)

/-- The tail of `PerformConversions` after the original has been
decoded: the fresh-map fallback read of the index, the per-name loop,
and the unconditional marshal-and-persist of the updated index
(`json.Marshal` of a `map[string]bool` cannot fail in Go, so the
source's marshal-error branch is dead and has no counterpart here);
only the final repository save can still fail. -/
def performConversionsFinish (env : Env) (pathPrefix : String) (media : Media) (img : Image)
    (conversionNames : List String) (st : Store) : ConvResult :=
  let gc0 := readBoolMapFresh media.generatedConversions
  let r := performConversionsLoop env pathPrefix media img conversionNames gc0 st
  let media' := { media with
    generatedConversions := some (marshalBoolMap r.1)
    updatedAt := env.now }
  if env.repoSaveFails media' then
    ⟨media', r.2.1, r.2.2 ++ [Event.repoSave false], some .repoSaveFailed⟩
  else
    ⟨media', r.2.1, r.2.2 ++ [Event.repoSave true], none⟩

/-- `PerformConversions`, the prelude: resolve the source and
conversions disks, fetch and decode the original; each failure is the
call's error.  Then `performConversionsFinish`. -/
def performConversions (env : Env) (pathPrefix : String) (st : Store) (media : Media)
    (conversionNames : List String) : ConvResult :=
  if ¬ hasDisk env media.disk then
    ⟨media, st, [], some .sourceDiskNotFound⟩
  else if ¬ hasDisk env media.conversionsDisk then
    ⟨media, st, [], some .conversionsDiskNotFound⟩
  else
    match storeGet st media.disk (getPath pathPrefix media) with
    | none => ⟨media, st, [], some .getFailed⟩
    | some bytes =>
      match env.decodeImage bytes with
      | none => ⟨media, st, [], some .decodeFailed⟩
      | some img => performConversionsFinish env pathPrefix media img conversionNames st

/-- The per-width inner loop of `GenerateResponsiveImages` for one
conversion name. -/
def respWidthLoop (env : Env) (pathPrefix : String) (media : Media) (img : Image) (name : String) :
    List Int → List (String × Bool) → Store →
    List (String × Bool) × Store × List Event
  | [], wm, st => (wm, st, [])
  | w :: ws, wm, st =>
    let widthKey := intToString w
    if lookupD wm widthKey false then
      respWidthLoop env pathPrefix media img name ws wm st
    else
      match env.transform name (some w) img with
      | none =>
        let r := respWidthLoop env pathPrefix media img name ws wm st
        (r.1, r.2.1, Event.transformCall name (some w) :: r.2.2)
      | some timg =>
        let rpath := getPathForResponsiveImage pathPrefix media name w
        if env.saveFails media.conversionsDisk rpath then
          let r := respWidthLoop env pathPrefix media img name ws wm st
          (r.1, r.2.1,
            Event.transformCall name (some w) ::
              Event.storeSave media.conversionsDisk rpath false :: r.2.2)
        else
          let st1 := storeSet st media.conversionsDisk rpath (encodeForFile env media.fileName timg)
          let r := respWidthLoop env pathPrefix media img name ws (insertA wm widthKey true) st1
          (r.1, r.2.1,
            Event.transformCall name (some w) ::
              Event.storeSave media.conversionsDisk rpath true :: r.2.2)

/-- The per-name outer loop of `GenerateResponsiveImages`: unknown
recipe names are skipped; a name's inner map is created (and therefore
appears in the final index) as soon as the name is processed. -/
def respNameLoop (env : Env) (pathPrefix : String) (media : Media) (img : Image) :
    List String → List (String × List (String × Bool)) → Store →
    List (String × List (String × Bool)) × Store × List Event
  | [], ri, st => (ri, st, [])
  | name :: rest, ri, st =>
    match env.responsiveConversions.lookup name with
    | none => respNameLoop env pathPrefix media img rest ri st
    | some rc =>
      let wm0 := lookupD ri name []
      let r := respWidthLoop env pathPrefix media img name rc.widths wm0 st
      let r' := respNameLoop env pathPrefix media img rest (insertA ri name r.1) r.2.1
      (r'.1, r'.2.1, r.2.2 ++ r'.2.2)

/-- The tail of `GenerateResponsiveImages` after the original has been
decoded: the fresh-map fallback read of the index, the nested loops,
and the unconditional final marshal-and-persist. -/
def generateResponsiveImagesFinish (env : Env) (pathPrefix : String) (media : Media)
    (img : Image) (conversionNames : List String) (st : Store) : ConvResult :=
  let ri0 := readNestedBoolMapFresh media.responsiveImages
  let r := respNameLoop env pathPrefix media img conversionNames ri0 st
  let media' := { media with
    responsiveImages := some (marshalNestedBoolMap r.1)
    updatedAt := env.now }
  if env.repoSaveFails media' then
    ⟨media', r.2.1, r.2.2 ++ [Event.repoSave false], some .repoSaveFailed⟩
  else
    ⟨media', r.2.1, r.2.2 ++ [Event.repoSave true], none⟩

/-- `GenerateResponsiveImages`: same prelude as `PerformConversions`,
then `generateResponsiveImagesFinish`. -/
def generateResponsiveImages (env : Env) (pathPrefix : String) (st : Store) (media : Media)
    (conversionNames : List String) : ConvResult :=
  if ¬ hasDisk env media.disk then
    ⟨media, st, [], some .sourceDiskNotFound⟩
  else if ¬ hasDisk env media.conversionsDisk then
    ⟨media, st, [], some .conversionsDiskNotFound⟩
  else
    match storeGet st media.disk (getPath pathPrefix media) with
    | none => ⟨media, st, [], some .getFailed⟩
    | some bytes =>
      match env.decodeImage bytes with
      | none => ⟨media, st, [], some .decodeFailed⟩
      | some img => generateResponsiveImagesFinish env pathPrefix media img conversionNames st

/-! ## URL resolution -/

/-- `GetURLForMedia`.  A nil record or a failed disk lookup yields the
empty string. -/
def getURLForMedia (env : Env) (pathPrefix : String) (media? : Option Media) : String :=
  match media? with
  | none => ""
  | some media =>
    if ¬ hasDisk env media.disk then ""
    else env.urlFor media.disk (getPath pathPrefix media)

/-- `GetURLForMediaConversion`: unmarshal the index (an error yields
`""`), require the name to be marked, then resolve on the conversions
disk. -/
def getURLForMediaConversion (env : Env) (pathPrefix : String) (media? : Option Media)
    (conversionName : String) : String :=
  match media? with
  | none => ""
  | some media =>
    match unmarshalBoolMapRaw media.generatedConversions with
    | none => ""
    | some generatedConversions =>
      if ¬ lookupD generatedConversions conversionName false then ""
      else if ¬ hasDisk env media.conversionsDisk then ""
      else env.urlFor media.conversionsDisk (getPathForConversion pathPrefix media conversionName)

/-- `GetURLForResponsiveImage`: unmarshal the index into
`map[string]map[string][]int`, require the conversion key, a `"widths"`
key under it, and the width in that list, then resolve on the
conversions disk. -/
def getURLForResponsiveImage (env : Env) (pathPrefix : String) (media? : Option Media)
    (conversionName : String) (width : Int) : String :=
  match media? with
  | none => ""
  | some media =>
    match unmarshalRespWidthsRaw media.responsiveImages with
    | none => ""
    | some responsiveImages =>
      match responsiveImages.lookup conversionName with
      | none => ""
      | some inner =>
        match inner.lookup "widths" with
        | none => ""
        | some widths =>
          if ¬ widths.contains width then ""
          else if ¬ hasDisk env media.conversionsDisk then ""
          else env.urlFor media.conversionsDisk
            (getPathForResponsiveImage pathPrefix media conversionName width)

/-! ## Options and ingestion -/

/-- `medialibrary.Options` (the log level is omitted: logging has no
observable effect in the model). -/
structure Options where
  defaultDisk : String
  conversionsDisk : String
  autoGenerateConversions : Bool
  performConvNames : List String
  generateRespNames : List String
  customProperties : List (String × Json)
  modelType : String
  modelId : Nat
  pathGenPrefix : String
  name : String

/-- A functional option (`medialibrary.Option`). -/
abbrev OptFn := Options → Options

/-- The per-call options record every ingestion variant builds before
applying the caller's options: the five disk/conversion settings and a
copy of the default custom properties are taken from the library
defaults, everything else starts at its zero value. -/
def initialCallOptions (d : Options) : Options :=
  { defaultDisk := d.defaultDisk
    conversionsDisk := d.conversionsDisk
    autoGenerateConversions := d.autoGenerateConversions
    performConvNames := d.performConvNames
    generateRespNames := d.generateRespNames
    customProperties := d.customProperties
    modelType := ""
    modelId := 0
    pathGenPrefix := ""
    name := "" }

/-- Apply the caller's options in order over the initial record. -/
def resolveOptions (d : Options) (options : List OptFn) : Options :=
  options.foldl (fun o f => f o) (initialCallOptions d)

/-- The `DefaultMediaLibrary` configuration relevant here: the path
generator's prefix and the library-wide default options. -/
structure Lib where
  pathGenPrefix : String
  defaultOptions : Options

/-- Result of an ingestion / copy / move operation: the returned record
(`none` on error), the storage state, the observable calls, and the
error. -/
structure AddResult where
  media : Option Media
  store : Store
  events : List Event
  error : Option OpError

/-- The `CustomProperties` raw message of a fresh record: initialised to
`"{}"` and overwritten with the marshalled custom-properties map when
that map is non-empty (marshalling an empty map also yields an empty
object, so the two branches coincide on `[]`). -/
def marshalledCustomProperties (opts : Options) : RawMessage :=
  some (Json.obj opts.customProperties)

/-- The conversion / responsive-image generation tail shared by every
ingestion variant: run `PerformConversions` when auto-generation is on
and names were requested, then `GenerateResponsiveImages` when its list
is non-empty; both errors are logged and dropped.  `gateResp` is true
for the variants that also gate responsive generation on the
auto-generate flag (`AddMediaFromDisk`, `AddMediaFromDiskToDisk`). -/
def ingestionGenerationTail (env : Env) (lib : Lib) (opts : Options) (gateResp : Bool)
    (st : Store) (media : Media) : Media × Store × List Event :=
  let s1 :=
    if opts.autoGenerateConversions ∧ ¬ opts.performConvNames.isEmpty then
      let r := performConversions env lib.pathGenPrefix st media opts.performConvNames
      (r.media, r.store, r.events)
    else (media, st, [])
  let s2 :=
    if (¬ gateResp ∨ opts.autoGenerateConversions) ∧ ¬ opts.generateRespNames.isEmpty then
      let r := generateResponsiveImages env lib.pathGenPrefix s1.2.1 s1.1 opts.generateRespNames
      (r.media, r.store, s1.2.2 ++ r.events)
    else (s1.1, s1.2.1, s1.2.2)
  s2

/-- `AddMediaFromURL`: parse the URL, resolve options, resolve the
disk, build the record with a dummy size and an extension-guessed MIME
type, persist it to obtain the ID, derive the path, let the backend
fetch-and-store the URL, verify existence, re-read the object, sniff
the true MIME type and size, re-persist, then auto-generate. -/
def addMediaFromURL (env : Env) (lib : Lib) (st : Store) (urlStr collection : String)
    (options : List OptFn) : AddResult :=
  match env.parseURLPath urlStr with
  | none => ⟨none, st, [], some .invalidURL⟩
  | some urlPath =>
    let opts := resolveOptions lib.defaultOptions options
    let baseName := goBase urlPath
    let theName := if opts.name = "" then goTrimSuffix baseName (goExt baseName) else opts.name
    let diskName := opts.defaultDisk
    if ¬ hasDisk env diskName then ⟨none, st, [], some .diskNotFound⟩
    else
      let media0 : Media :=
        { id := 0, modelType := opts.modelType, modelId := opts.modelId
          uuid := env.freshUUID, collectionName := collection, name := theName
          fileName := baseName
          mimeType := getMimeTypeFromExtension (goExt baseName)
          disk := diskName, conversionsDisk := opts.conversionsDisk, size := 0
          manipulations := some (Json.obj [])
          customProperties := marshalledCustomProperties opts
          generatedConversions := some (Json.obj [])
          responsiveImages := some (Json.obj [])
          orderColumn := none, updatedAt := env.now }
      if env.repoSaveFails media0 then
        ⟨none, st, [Event.repoSave false], some .repoSaveFailed⟩
      else
        let media1 := { media0 with id := env.nextId }
        let path := getPath lib.pathGenPrefix media1
        if env.saveFromURLFails diskName path then
          ⟨none, st, [Event.repoSave true, Event.storeSaveFromURL diskName path false],
            some .storeFailed⟩
        else
          let st1 := storeSet st diskName path (env.urlContent urlStr)
          let evs1 := [Event.repoSave true, Event.storeSaveFromURL diskName path true]
          match storeGet st1 diskName path with
          | none => ⟨none, st1, evs1, some .verifyFailed⟩
          | some fileBytes =>
            let media2 := { media1 with
              size := fileBytes.length
              mimeType := detectMime env fileBytes media1.fileName
              updatedAt := env.now }
            if env.repoSaveFails media2 then
              ⟨none, st1, evs1 ++ [Event.repoSave false], some .repoSaveFailed⟩
            else
              let tail := ingestionGenerationTail env lib opts false st1 media2
              ⟨some tail.1, tail.2.1, evs1 ++ [Event.repoSave true] ++ tail.2.2, none⟩

/-- `AddMediaFromDisk`: open and read the local file, sniff the MIME
type, build the record with the true size up front, persist to obtain
the ID, derive the path, store the bytes, then auto-generate (both
generation steps gated on the auto-generate flag in this variant). -/
def addMediaFromDisk (env : Env) (lib : Lib) (st : Store) (filePath collection : String)
    (options : List OptFn) : AddResult :=
  match env.localFile filePath with
  | none => ⟨none, st, [], some .openFailed⟩
  | some fileContent =>
    let opts := resolveOptions lib.defaultOptions options
    let baseName := goBase filePath
    let theName := if opts.name = "" then goTrimSuffix baseName (goExt baseName) else opts.name
    let diskName := opts.defaultDisk
    if ¬ hasDisk env diskName then ⟨none, st, [], some .diskNotFound⟩
    else
      let media0 : Media :=
        { id := 0, modelType := opts.modelType, modelId := opts.modelId
          uuid := env.freshUUID, collectionName := collection, name := theName
          fileName := baseName
          mimeType := detectMime env fileContent baseName
          disk := diskName, conversionsDisk := opts.conversionsDisk
          size := fileContent.length
          manipulations := some (Json.obj [])
          customProperties := marshalledCustomProperties opts
          generatedConversions := some (Json.obj [])
          responsiveImages := some (Json.obj [])
          orderColumn := none, updatedAt := env.now }
      if env.repoSaveFails media0 then
        ⟨none, st, [Event.repoSave false], some .repoSaveFailed⟩
      else
        let media1 := { media0 with id := env.nextId }
        let path := getPath lib.pathGenPrefix media1
        if env.saveFails diskName path then
          ⟨none, st, [Event.repoSave true, Event.storeSave diskName path false],
            some .storeFailed⟩
        else
          let st1 := storeSet st diskName path fileContent
          let evs1 := [Event.repoSave true, Event.storeSave diskName path true]
          let tail := ingestionGenerationTail env lib opts true st1 media1
          ⟨some tail.1, tail.2.1, evs1 ++ tail.2.2, none⟩

/-- `AddMediaFromDiskToDisk`: resolve the source disk, check existence
and read the object, resolve options (the initial default disk being
the target parameter) and the target disk, build the record on the
target disk with sniffed MIME and true size, persist to obtain the ID,
write to the target, then auto-generate (both steps gated). -/
def addMediaFromDiskToDisk (env : Env) (lib : Lib) (st : Store)
    (sourceDisk sourcePath targetDisk collection : String) (options : List OptFn) : AddResult :=
  if ¬ hasDisk env sourceDisk then ⟨none, st, [], some .sourceDiskNotFound⟩
  else
    match storeGet st sourceDisk sourcePath with
    | none => ⟨none, st, [], some .sourceNotFound⟩
    | some fileContent =>
      let opts := resolveOptions
        { lib.defaultOptions with defaultDisk := targetDisk } options
      if ¬ hasDisk env targetDisk then ⟨none, st, [], some .targetDiskNotFound⟩
      else
        let baseName := goBase sourcePath
        let theName := if opts.name = "" then goTrimSuffix baseName (goExt baseName) else opts.name
        let media0 : Media :=
          { id := 0, modelType := opts.modelType, modelId := opts.modelId
            uuid := env.freshUUID, collectionName := collection, name := theName
            fileName := baseName
            mimeType := detectMime env fileContent baseName
            disk := targetDisk, conversionsDisk := opts.conversionsDisk
            size := fileContent.length
            manipulations := some (Json.obj [])
            customProperties := marshalledCustomProperties opts
            generatedConversions := some (Json.obj [])
            responsiveImages := some (Json.obj [])
            orderColumn := none, updatedAt := env.now }
        if env.repoSaveFails media0 then
          ⟨none, st, [Event.repoSave false], some .repoSaveFailed⟩
        else
          let media1 := { media0 with id := env.nextId }
          let path := getPath lib.pathGenPrefix media1
          if env.saveFails targetDisk path then
            ⟨none, st, [Event.repoSave true, Event.storeSave targetDisk path false],
              some .storeFailed⟩
          else
            let st1 := storeSet st targetDisk path fileContent
            let evs1 := [Event.repoSave true, Event.storeSave targetDisk path true]
            let tail := ingestionGenerationTail env lib opts true st1 media1
            ⟨some tail.1, tail.2.1, evs1 ++ tail.2.2, none⟩

/-! ## Copy / Move -/

/-- `CopyMediaToDisk`: verify the original exists on the source disk,
read it, build a new record copying the descriptive fields (including
the stored MIME type and the derived-artifact index) with a fresh UUID,
persist it for a new ID, and write the bytes at the new record's path
on the target disk.  The source object is untouched. -/
def copyMediaToDisk (env : Env) (lib : Lib) (st : Store) (media : Media)
    (targetDisk : String) : AddResult :=
  if ¬ hasDisk env media.disk then ⟨none, st, [], some .sourceDiskNotFound⟩
  else if ¬ hasDisk env targetDisk then ⟨none, st, [], some .targetDiskNotFound⟩
  else
    let sourcePath := getPath lib.pathGenPrefix media
    match storeGet st media.disk sourcePath with
    | none => ⟨none, st, [], some .sourceNotFound⟩
    | some fileContent =>
      let copied0 : Media :=
        { id := 0, modelType := media.modelType, modelId := media.modelId
          uuid := env.freshUUID, collectionName := media.collectionName
          name := media.name, fileName := media.fileName
          mimeType := media.mimeType
          disk := targetDisk, conversionsDisk := media.conversionsDisk
          size := fileContent.length
          manipulations := media.manipulations
          customProperties := media.customProperties
          generatedConversions := media.generatedConversions
          responsiveImages := media.responsiveImages
          orderColumn := media.orderColumn, updatedAt := env.now }
      if env.repoSaveFails copied0 then
        ⟨none, st, [Event.repoSave false], some .repoSaveFailed⟩
      else
        let copied1 := { copied0 with id := env.nextId }
        let targetPath := getPath lib.pathGenPrefix copied1
        if env.saveFails targetDisk targetPath then
          ⟨none, st, [Event.repoSave true, Event.storeSave targetDisk targetPath false],
            some .storeFailed⟩
        else
          ⟨some copied1, storeSet st targetDisk targetPath fileContent,
            [Event.repoSave true, Event.storeSave targetDisk targetPath true], none⟩

/-- `MoveMediaToDisk`: like copy, but the MIME type of the new record
is re-detected from the content (the source record's stored MIME type
is ignored), and after a successful target write the source object is
deleted; a delete failure is returned as the operation's error. -/
def moveMediaToDisk (env : Env) (lib : Lib) (st : Store) (media : Media)
    (targetDisk : String) : AddResult :=
  if ¬ hasDisk env media.disk then ⟨none, st, [], some .sourceDiskNotFound⟩
  else if ¬ hasDisk env targetDisk then ⟨none, st, [], some .targetDiskNotFound⟩
  else
    let sourcePath := getPath lib.pathGenPrefix media
    match storeGet st media.disk sourcePath with
    | none => ⟨none, st, [], some .sourceNotFound⟩
    | some fileContent =>
      let moved0 : Media :=
        { id := 0, modelType := media.modelType, modelId := media.modelId
          uuid := env.freshUUID, collectionName := media.collectionName
          name := media.name, fileName := media.fileName
          mimeType := detectMime env fileContent media.fileName
          disk := targetDisk, conversionsDisk := media.conversionsDisk
          size := fileContent.length
          manipulations := media.manipulations
          customProperties := media.customProperties
          generatedConversions := media.generatedConversions
          responsiveImages := media.responsiveImages
          orderColumn := media.orderColumn, updatedAt := env.now }
      if env.repoSaveFails moved0 then
        ⟨none, st, [Event.repoSave false], some .repoSaveFailed⟩
      else
        let moved1 := { moved0 with id := env.nextId }
        let targetPath := getPath lib.pathGenPrefix moved1
        if env.saveFails targetDisk targetPath then
          ⟨none, st, [Event.repoSave true, Event.storeSave targetDisk targetPath false],
            some .storeFailed⟩
        else
          let st1 := storeSet st targetDisk targetPath fileContent
          let evs1 := [Event.repoSave true, Event.storeSave targetDisk targetPath true]
          if env.deleteFails media.disk sourcePath then
            ⟨none, st1, evs1, some .deleteFailed⟩
          else
            ⟨some moved1, storeDel st1 media.disk sourcePath,
              evs1 ++ [Event.storeDelete media.disk sourcePath], none⟩

/-- `GetMediaUrl`, the alias of `GetURLForMedia` (duplicated body in
the source). -/
def getMediaUrl (env : Env) (pathPrefix : String) (media? : Option Media) : String :=
  match media? with
  | none => ""
  | some media =>
    if ¬ hasDisk env media.disk then ""
    else env.urlFor media.disk (getPath pathPrefix media)

/-- `GetMediaConversionUrl`, the alias of `GetURLForMediaConversion`. -/
def getMediaConversionUrl (env : Env) (pathPrefix : String) (media? : Option Media)
    (conversionName : String) : String :=
  match media? with
  | none => ""
  | some media =>
    match unmarshalBoolMapRaw media.generatedConversions with
    | none => ""
    | some generatedConversions =>
      if ¬ lookupD generatedConversions conversionName false then ""
      else if ¬ hasDisk env media.conversionsDisk then ""
      else env.urlFor media.conversionsDisk (getPathForConversion pathPrefix media conversionName)

/-- `GetMediaResponsiveImageUrl`, the alias of
`GetURLForResponsiveImage`. -/
def getMediaResponsiveImageUrl (env : Env) (pathPrefix : String) (media? : Option Media)
    (conversionName : String) (width : Int) : String :=
  match media? with
  | none => ""
  | some media =>
    match unmarshalRespWidthsRaw media.responsiveImages with
    | none => ""
    | some responsiveImages =>
      match responsiveImages.lookup conversionName with
      | none => ""
      | some inner =>
        match inner.lookup "widths" with
        | none => ""
        | some widths =>
          if ¬ widths.contains width then ""
          else if ¬ hasDisk env media.conversionsDisk then ""
          else env.urlFor media.conversionsDisk
            (getPathForResponsiveImage pathPrefix media conversionName width)

/-! ## Derived observations used by the theorems -/

/-- The conversion is marked generated in the record's index, read the
way the URL resolvers read it (an absent record or unreadable index
counts as not marked). -/
def conversionMarked (media? : Option Media) (conversionName : String) : Bool :=
  match media? with
  | none => false
  | some m =>
    match unmarshalBoolMapRaw m.generatedConversions with
    | none => false
    | some gc => lookupD gc conversionName false

/-- The conversion is marked generated, read the way
`PerformConversions` reads the index (fresh-map fallback). -/
def gcMarked (m : Media) (conversionName : String) : Bool :=
  lookupD (readBoolMapFresh m.generatedConversions) conversionName false

/-- The width key is recorded for the conversion name, read the way
`GenerateResponsiveImages` reads the index. -/
def riMarked (m : Media) (conversionName widthKey : String) : Bool :=
  lookupD (lookupD (readNestedBoolMapFresh m.responsiveImages) conversionName []) widthKey false

/-- A plain path segment: non-empty and not a dot segment (`"."` /
`".."`).  On such segments `filepath.Clean` is plain concatenation. -/
def plainSeg (seg : List Char) : Bool :=
  !(seg == [] || seg == ['.'] || seg == ['.', '.'])

/-- A successful storage write of a derived artifact. -/
def isArtifactStore : Event → Bool
  | .storeSave _ _ true => true
  | _ => false

/-- Any transformer invocation. -/
def isTransform : Event → Bool
  | .transformCall _ _ => true
  | _ => false

/-- Any attempted storage write (save or save-from-URL, successful or
not). -/
def isWrite : Event → Bool
  | .storeSave _ _ _ => true
  | .storeSaveFromURL _ _ _ => true
  | _ => false

/-! ## Concrete fixtures -/

/-- A fully co-operative environment: two registered disks, non-empty
URLs, every oracle succeeds, one registered responsive recipe
`"thumb" ↦ [150]`. -/
def env1 : Env :=
  { disks := ["local", "conv"]
    urlFor := fun d p => "https://cdn.example/" ++ d ++ "/" ++ p
    sniffMime := fun _ => some "image/png"
    decodeImage := fun _ => some 1
    transform := fun _ _ img => some (img + 1)
    responsiveConversions := [("thumb", ⟨[150]⟩)]
    encodePNG := fun i => [i]
    encodeGIF := fun i => [i]
    encodeJPEG := fun i => [i]
    saveFails := fun _ _ => false
    saveFromURLFails := fun _ _ => false
    deleteFails := fun _ _ => false
    repoSaveFails := fun _ => false
    nextId := 7
    freshUUID := 99
    parseURLPath := fun _ => some "/photo.png"
    urlContent := fun _ => [1, 2, 3]
    localFile := fun _ => some [1, 2, 3]
    now := 5 }

/-- A persisted media record with an empty derived-artifact index. -/
def m1 : Media :=
  { id := 42, modelType := "posts", modelId := 1, uuid := 10
    collectionName := "gallery", name := "photo", fileName := "photo.png"
    mimeType := "image/png", disk := "local", conversionsDisk := "conv"
    size := 3, manipulations := some (Json.obj [])
    customProperties := some (Json.obj [])
    generatedConversions := some (Json.obj [])
    responsiveImages := some (Json.obj [])
    orderColumn := none, updatedAt := 0 }

/-- Storage holding `m1`'s original. -/
def st1 : Store := [(("local", getPath "media" m1), [1, 2, 3])]

/-- The same environment with an empty disk registry. -/
def env2 : Env := { env1 with disks := [] }

/-- `env1`, except the transform named `"a"` always fails. -/
def env4 : Env :=
  { env1 with transform := fun name _ img => if name = "a" then none else some (img + 1) }

/-- `env1` with a repository that rejects every insert (saves of
records whose ID is still zero). -/
def env5 : Env := { env1 with repoSaveFails := fun m => m.id == 0 }

/-- A library configuration mirroring the example wiring. -/
def lib1 : Lib :=
  { pathGenPrefix := "media"
    defaultOptions :=
      { defaultDisk := "local", conversionsDisk := "conv"
        autoGenerateConversions := true
        performConvNames := ["thumbnail"], generateRespNames := ["thumb"]
        customProperties := [], modelType := "", modelId := 0
        pathGenPrefix := "", name := "" } }

/-- A record whose index already holds one conversion and one
responsive width. -/
def m6 : Media := { m1 with
  generatedConversions := some (Json.obj [("old", Json.bool true)])
  responsiveImages := some (Json.obj [("thumb", Json.obj [("99", Json.bool true)])]) }


/-! ## Map, store and round-trip lemmas -/

theorem lookup_insertA_self {α : Type} (l : List (String × α)) (k : String) (v : α) :
    (insertA l k v).lookup k = some v := by
  induction l with
  | nil => simp [insertA, List.lookup]
  | cons kv rest ih =>
    by_cases h : kv.1 = k
    · simp [insertA, h, List.lookup]
    · simp only [insertA]
      rw [if_neg h]
      have hkk : (k == kv.1) = false :=
        beq_eq_false_iff_ne.mpr fun hh => h hh.symm
      simp only [List.lookup, hkk]
      exact ih

theorem lookup_insertA_ne {α : Type} (l : List (String × α)) (k k' : String) (v : α)
    (h : k' ≠ k) : (insertA l k v).lookup k' = l.lookup k' := by
  have hne : (k' == k) = false := beq_eq_false_iff_ne.mpr h
  induction l with
  | nil => simp [insertA, List.lookup, hne]
  | cons kv rest ih =>
    by_cases hk : kv.1 = k
    · simp only [insertA]
      rw [if_pos hk]
      subst hk
      simp only [List.lookup, hne]
    · simp only [insertA]
      rw [if_neg hk]
      simp only [List.lookup]
      cases hc : (k' == kv.1) with
      | true => rfl
      | false => exact ih

theorem lookupD_insertA_self {α : Type} (l : List (String × α)) (k : String) (v d : α) :
    lookupD (insertA l k v) k d = v := by
  simp [lookupD, lookup_insertA_self]

theorem lookupD_insertA_ne {α : Type} (l : List (String × α)) (k k' : String) (v d : α)
    (h : k' ≠ k) : lookupD (insertA l k v) k' d = lookupD l k' d := by
  simp [lookupD, lookup_insertA_ne l k k' v h]

/-- Unmarshalling a marshalled `map[string]bool` round-trips. -/
theorem unmarshal_marshal_boolMap (l : List (String × Bool)) :
    unmarshalBoolMap (marshalBoolMap l) = some l := by
  induction l with
  | nil => rfl
  | cons kv rest ih =>
    simp only [marshalBoolMap, unmarshalBoolMap, List.map_cons, mapOptionA] at *
    simp [ih]

/-- Unmarshalling a marshalled nested bool map round-trips. -/
theorem unmarshal_marshal_nestedBoolMap (l : List (String × List (String × Bool))) :
    unmarshalNestedBoolMap (marshalNestedBoolMap l) = some l := by
  induction l with
  | nil => rfl
  | cons kv rest ih =>
    simp only [marshalNestedBoolMap, unmarshalNestedBoolMap, List.map_cons, mapOptionA] at *
    simp [ih, unmarshal_marshal_boolMap]

theorem readBoolMapFresh_marshal (l : List (String × Bool)) :
    readBoolMapFresh (some (marshalBoolMap l)) = l := by
  simp [readBoolMapFresh, unmarshal_marshal_boolMap]

theorem readNestedBoolMapFresh_marshal (l : List (String × List (String × Bool))) :
    readNestedBoolMapFresh (some (marshalNestedBoolMap l)) = l := by
  simp [readNestedBoolMapFresh, unmarshal_marshal_nestedBoolMap]

theorem storeGet_set_self (st : Store) (d p : String) (b : Bytes) :
    storeGet (storeSet st d p b) d p = some b := by
  induction st with
  | nil => simp [storeSet, storeGet, List.lookup]
  | cons e rest ih =>
    by_cases h : e.1 = (d, p)
    · simp [storeSet, h, storeGet, List.lookup]
    · simp only [storeSet]
      rw [if_neg h]
      have hne : ((d, p) == e.1) = false :=
        beq_eq_false_iff_ne.mpr fun hh => h hh.symm
      simp only [storeGet, List.lookup, hne] at ih ⊢
      exact ih

theorem storeGet_set_ne (st : Store) (d p d' p' : String) (b : Bytes)
    (h : ¬ (d', p') = (d, p)) :
    storeGet (storeSet st d' p' b) d p = storeGet st d p := by
  have hne : ((d, p) == (d', p')) = false :=
    beq_eq_false_iff_ne.mpr fun hh => h hh.symm
  induction st with
  | nil => simp [storeSet, storeGet, List.lookup, hne]
  | cons e rest ih =>
    by_cases he : e.1 = (d', p')
    · simp only [storeSet]
      rw [if_pos he]
      simp only [storeGet, List.lookup, he, hne]
    · simp only [storeSet]
      rw [if_neg he]
      simp only [storeGet, List.lookup] at ih ⊢
      cases hc : ((d, p) == e.1) with
      | true => rfl
      | false => exact ih

theorem storeGet_del_self (st : Store) (d p : String) :
    storeGet (storeDel st d p) d p = none := by
  induction st with
  | nil => rfl
  | cons e rest ih =>
    by_cases h : e.1 = (d, p)
    · simp only [storeDel, List.filter]
      rw [show (decide ¬ e.1 = (d, p)) = false by simpa using h]
      simpa [storeDel] using ih
    · simp only [storeDel, List.filter]
      rw [show (decide ¬ e.1 = (d, p)) = true by simpa using h]
      have hne : ((d, p) == e.1) = false :=
        beq_eq_false_iff_ne.mpr fun hh => h hh.symm
      simp only [storeGet, List.lookup, hne] at ih ⊢
      simpa [storeDel] using ih

theorem storeGet_del_ne (st : Store) (d p d' p' : String)
    (h : ¬ (d', p') = (d, p)) :
    storeGet (storeDel st d' p') d p = storeGet st d p := by
  induction st with
  | nil => rfl
  | cons e rest ih =>
    by_cases he : e.1 = (d', p')
    · have hne : ((d, p) == e.1) = false := by
        rw [he]
        exact beq_eq_false_iff_ne.mpr fun hh => h hh.symm
      simp only [storeDel, List.filter]
      rw [show (decide ¬ e.1 = (d', p')) = false by simpa using he]
      simp only [storeGet, List.lookup, hne] at ih ⊢
      simpa [storeDel] using ih
    · simp only [storeDel, List.filter]
      rw [show (decide ¬ e.1 = (d', p')) = true by simpa using he]
      simp only [storeGet, List.lookup] at ih ⊢
      cases hc : ((d, p) == e.1) with
      | true => rfl
      | false => simpa [storeDel] using ih

/-! ## Reduction lemmas -/

/-- On a successful prelude, `performConversions` is its tail. -/
theorem performConversions_eq_finish (env : Env) (pathPrefix : String) (st : Store)
    (media : Media) (conversionNames : List String) (bytes : Bytes) (img : Image)
    (h1 : hasDisk env media.disk = true)
    (h2 : hasDisk env media.conversionsDisk = true)
    (hb : storeGet st media.disk (getPath pathPrefix media) = some bytes)
    (hd : env.decodeImage bytes = some img) :
    performConversions env pathPrefix st media conversionNames
      = performConversionsFinish env pathPrefix media img conversionNames st := by
  unfold performConversions
  rw [if_neg (by simp [h1]), if_neg (by simp [h2]), hb]
  simp [hd]

/-- On a successful prelude, `generateResponsiveImages` is its tail. -/
theorem generateResponsiveImages_eq_finish (env : Env) (pathPrefix : String) (st : Store)
    (media : Media) (conversionNames : List String) (bytes : Bytes) (img : Image)
    (h1 : hasDisk env media.disk = true)
    (h2 : hasDisk env media.conversionsDisk = true)
    (hb : storeGet st media.disk (getPath pathPrefix media) = some bytes)
    (hd : env.decodeImage bytes = some img) :
    generateResponsiveImages env pathPrefix st media conversionNames
      = generateResponsiveImagesFinish env pathPrefix media img conversionNames st := by
  unfold generateResponsiveImages
  rw [if_neg (by simp [h1]), if_neg (by simp [h2]), hb]
  simp [hd]

/-- The tail of `PerformConversions` errs only on the final save. -/
theorem performConversionsFinish_error (env : Env) (pathPrefix : String) (media : Media)
    (img : Image) (conversionNames : List String) (st : Store) :
    (performConversionsFinish env pathPrefix media img conversionNames st).error = none ∨
    (performConversionsFinish env pathPrefix media img conversionNames st).error
      = some OpError.repoSaveFailed := by
  simp only [performConversionsFinish]
  split
  · exact Or.inr rfl
  · exact Or.inl rfl

/-! ## C10 — the Url-suffixed aliases -/

/-- C10: the `Url`-suffixed alias methods are extensionally equal to
their `GetURLFor`-counterparts on every input: `GetMediaUrl` agrees
with `GetURLForMedia`, `GetMediaConversionUrl` with
`GetURLForMediaConversion`, and `GetMediaResponsiveImageUrl` with
`GetURLForResponsiveImage`. -/
theorem url_alias_equivalence (env : Env) (pathPrefix : String) (media? : Option Media)
    (conversionName : String) (width : Int) :
    getMediaUrl env pathPrefix media? = getURLForMedia env pathPrefix media? ∧
    getMediaConversionUrl env pathPrefix media? conversionName
      = getURLForMediaConversion env pathPrefix media? conversionName ∧
    getMediaResponsiveImageUrl env pathPrefix media? conversionName width
      = getURLForResponsiveImage env pathPrefix media? conversionName width :=
  ⟨rfl, rfl, rfl⟩

/-! ## C9 — URL resolution for an ungenerated conversion -/

/-- C9: for every record and conversion name not marked present in the
record's generated-conversions index — including the nil-record input —
`GetURLForMediaConversion` returns the empty string (the function is
total, so no error or panic is possible), and the same empty string is
returned whenever the conversions-disk lookup fails. -/
theorem ungenerated_conversion_url_empty (env : Env) (pathPrefix : String)
    (media? : Option Media) (conversionName : String) :
    (conversionMarked media? conversionName = false →
      getURLForMediaConversion env pathPrefix media? conversionName = "") ∧
    (∀ m : Media, hasDisk env m.conversionsDisk = false →
      getURLForMediaConversion env pathPrefix (some m) conversionName = "") := by
  constructor
  · intro h
    cases media? with
    | none => rfl
    | some m =>
      simp only [conversionMarked] at h
      simp only [getURLForMediaConversion]
      cases hu : unmarshalBoolMapRaw m.generatedConversions with
      | none => simp [hu]
      | some gc =>
        rw [hu] at h
        simp at h
        simp [hu, h]
  · intro m hm
    simp only [getURLForMediaConversion]
    cases hu : unmarshalBoolMapRaw m.generatedConversions with
    | none => simp [hu]
    | some gc => simp [hu, hm]

/-- C9 witness: concrete evaluations through the theorem. -/
theorem ungenerated_conversion_url_empty_witness :
    conversionMarked (some m1) "nonexistent" = false ∧
    getURLForMediaConversion env1 "media" (some m1) "nonexistent" = "" ∧
    getURLForMediaConversion env1 "media" none "nonexistent" = "" :=
  ⟨by decide,
    (ungenerated_conversion_url_empty env1 "media" (some m1) "nonexistent").1 (by decide),
    (ungenerated_conversion_url_empty env1 "media" none "nonexistent").1 (by decide)⟩

/-! ## C1 — generated responsive widths are not resolvable -/

/-- C1: a successful `GenerateResponsiveImages` run on `m1` stores the
width-150 artifact for `"thumb"` and records the width in the index,
and the conversions disk produces a non-empty URL for the responsive
path — yet `GetURLForResponsiveImage` returns the empty string for
exactly that record, name and width.  The generator writes the index as
`{"thumb": {"150": true}}` while the resolver unmarshals it into
`map[string]map[string][]int` and looks for a `"widths"` array, so the
unmarshal fails and the resolver returns `""`: the claimed
resolvability does not hold on the code. -/
theorem generated_responsive_width_not_resolvable :
    (generateResponsiveImages env1 "media" st1 m1 ["thumb"]).error = none ∧
    riMarked (generateResponsiveImages env1 "media" st1 m1 ["thumb"]).media "thumb" "150"
      = true ∧
    storeGet (generateResponsiveImages env1 "media" st1 m1 ["thumb"]).store "conv"
      (getPathForResponsiveImage "media" m1 "thumb" 150) ≠ none ∧
    env1.urlFor "conv" (getPathForResponsiveImage "media" m1 "thumb" 150) ≠ "" ∧
    getURLForResponsiveImage env1 "media"
      (some (generateResponsiveImages env1 "media" st1 m1 ["thumb"]).media) "thumb" 150
      = "" := by
  refine ⟨by decide, by decide, by decide, by decide, by decide⟩

/-! ## C2 — which failures PerformConversions reports -/

/-- C2 counterexample: with an empty disk registry,
`PerformConversions` returns a non-nil error from the source-disk
lookup — a failure mode that is neither index-marshalling nor the final
repository save, refuting the claim that every other failure mode
yields nil. -/
theorem performConversions_prelude_error :
    (performConversions env2 "media" [] m1 ["a"]).error = some OpError.sourceDiskNotFound ∧
    OpError.sourceDiskNotFound ≠ OpError.repoSaveFailed := by
  refine ⟨by decide, by decide⟩

/-- C2 amended: once the prelude succeeds — both disk lookups resolve
and the original can be fetched and decoded — the only failure
`PerformConversions` can report is the final repository save
(`json.Marshal` of a `map[string]bool` cannot fail); every per-name
transform or store failure still yields a nil error. -/
theorem performConversions_error_after_prelude (env : Env) (pathPrefix : String) (st : Store)
    (media : Media) (conversionNames : List String)
    (h1 : hasDisk env media.disk = true)
    (h2 : hasDisk env media.conversionsDisk = true)
    (h3 : ((storeGet st media.disk (getPath pathPrefix media)).bind env.decodeImage).isSome
      = true) :
    (performConversions env pathPrefix st media conversionNames).error = none ∨
    (performConversions env pathPrefix st media conversionNames).error
      = some OpError.repoSaveFailed := by
  obtain ⟨bytes, hb⟩ : ∃ b, storeGet st media.disk (getPath pathPrefix media) = some b := by
    cases e : storeGet st media.disk (getPath pathPrefix media) with
    | none => rw [e] at h3; simp at h3
    | some b => exact ⟨b, rfl⟩
  obtain ⟨img, hd⟩ : ∃ i, env.decodeImage bytes = some i := by
    rw [hb] at h3
    cases e : env.decodeImage bytes with
    | none => simp [e] at h3
    | some i => exact ⟨i, rfl⟩
  rw [performConversions_eq_finish env pathPrefix st media conversionNames bytes img h1 h2 hb hd]
  exact performConversionsFinish_error env pathPrefix media img conversionNames st

/-- C2 amended witness. -/
theorem performConversions_error_after_prelude_witness :
    hasDisk env1 m1.disk = true ∧
    hasDisk env1 m1.conversionsDisk = true ∧
    ((storeGet st1 m1.disk (getPath "media" m1)).bind env1.decodeImage).isSome = true ∧
    ((performConversions env1 "media" st1 m1 ["thumb"]).error = none ∨
      (performConversions env1 "media" st1 m1 ["thumb"]).error
        = some OpError.repoSaveFailed) :=
  ⟨by decide, by decide, by decide,
    performConversions_error_after_prelude env1 "media" st1 m1 ["thumb"]
      (by decide) (by decide) (by decide)⟩

/-! ## C4 — per-name failure tolerance -/

/-- C4: when `PerformConversions(r, "a", "b")` runs with the transform
for `a` failing and the transform and store for `b` succeeding (on a
record with neither name yet generated and a co-operative repository),
the call returns no error, the loop continues past the failed name, and
the persisted generated-conversions index contains `b` but not `a`. -/
theorem perName_failure_tolerance (env : Env) (pathPrefix : String) (st : Store) (media : Media)
    (a b : String) (bytes : Bytes) (img : Image)
    (hab : a ≠ b)
    (h1 : hasDisk env media.disk = true)
    (h2 : hasDisk env media.conversionsDisk = true)
    (hb : storeGet st media.disk (getPath pathPrefix media) = some bytes)
    (hd : env.decodeImage bytes = some img)
    (hGa : gcMarked media a = false)
    (hGb : gcMarked media b = false)
    (hTa : env.transform a none img = none)
    (hTb : (env.transform b none img).isSome = true)
    (hSb : env.saveFails media.conversionsDisk (getPathForConversion pathPrefix media b)
      = false)
    (hRepo : ∀ m, env.repoSaveFails m = false) :
    (performConversions env pathPrefix st media [a, b]).error = none ∧
    gcMarked (performConversions env pathPrefix st media [a, b]).media b = true ∧
    gcMarked (performConversions env pathPrefix st media [a, b]).media a = false := by
  obtain ⟨tb, htb⟩ := Option.isSome_iff_exists.mp hTb
  have hGa' : lookupD (readBoolMapFresh media.generatedConversions) a false = false := hGa
  have hGb' : lookupD (readBoolMapFresh media.generatedConversions) b false = false := hGb
  rw [performConversions_eq_finish env pathPrefix st media [a, b] bytes img h1 h2 hb hd]
  simp only [performConversionsFinish, performConversionsLoop, hGa', hGb', hTa, htb, hSb,
    Bool.false_eq_true, if_false]
  simp only [hRepo, Bool.false_eq_true, if_false]
  refine ⟨trivial, ?_, ?_⟩
  · simp [gcMarked, readBoolMapFresh_marshal, lookupD_insertA_self]
  · simp only [gcMarked, readBoolMapFresh_marshal]
    rw [lookupD_insertA_ne _ _ _ _ _ hab]
    exact hGa'

/-- C4 witness: `env4` fails the transform for `"a"` only. -/
theorem perName_failure_tolerance_witness :
    ("a" : String) ≠ "b" ∧
    (performConversions env4 "media" st1 m1 ["a", "b"]).error = none ∧
    gcMarked (performConversions env4 "media" st1 m1 ["a", "b"]).media "b" = true ∧
    gcMarked (performConversions env4 "media" st1 m1 ["a", "b"]).media "a" = false := by
  refine ⟨by decide, ?_⟩
  exact perName_failure_tolerance env4 "media" st1 m1 "a" "b" [1, 2, 3] 1
    (by decide) (by decide) (by decide) (by decide) (by decide) (by decide) (by decide)
    (by decide) (by decide) (by decide) (fun m => rfl)

/-! ## C3 — idempotent conversion generation -/

/-- C3: calling `PerformConversions` twice in sequence on the same
record with the same single conversion name — the first call
succeeding — stores exactly one derived artifact across both calls and
leaves the name marked `true` in the index after each call; the second
call invokes no transform and attempts no store (it also leaves the
storage state untouched). -/
theorem conversion_generation_idempotent (env : Env) (pathPrefix : String) (st : Store)
    (media : Media) (name : String) (bytes : Bytes) (img timg : Image)
    (h1 : hasDisk env media.disk = true)
    (h2 : hasDisk env media.conversionsDisk = true)
    (hb : storeGet st media.disk (getPath pathPrefix media) = some bytes)
    (hd : env.decodeImage bytes = some img)
    (hG : gcMarked media name = false)
    (ht : env.transform name none img = some timg)
    (hS : env.saveFails media.conversionsDisk (getPathForConversion pathPrefix media name)
      = false)
    (hRepo : ∀ m, env.repoSaveFails m = false)
    (hpath : ¬ (media.conversionsDisk, getPathForConversion pathPrefix media name)
      = (media.disk, getPath pathPrefix media)) :
    (performConversions env pathPrefix st media [name]).error = none ∧
    (performConversions env pathPrefix
        (performConversions env pathPrefix st media [name]).store
        (performConversions env pathPrefix st media [name]).media [name]).error = none ∧
    gcMarked (performConversions env pathPrefix st media [name]).media name = true ∧
    gcMarked (performConversions env pathPrefix
        (performConversions env pathPrefix st media [name]).store
        (performConversions env pathPrefix st media [name]).media [name]).media name = true ∧
    ((performConversions env pathPrefix st media [name]).events ++
        (performConversions env pathPrefix
          (performConversions env pathPrefix st media [name]).store
          (performConversions env pathPrefix st media [name]).media [name]).events).countP
      isArtifactStore = 1 ∧
    (performConversions env pathPrefix
        (performConversions env pathPrefix st media [name]).store
        (performConversions env pathPrefix st media [name]).media [name]).events.countP
      isTransform = 0 ∧
    (performConversions env pathPrefix
        (performConversions env pathPrefix st media [name]).store
        (performConversions env pathPrefix st media [name]).media [name]).events.countP
      isWrite = 0 ∧
    (performConversions env pathPrefix
        (performConversions env pathPrefix st media [name]).store
        (performConversions env pathPrefix st media [name]).media [name]).store
      = (performConversions env pathPrefix st media [name]).store := by
  have hG' : lookupD (readBoolMapFresh media.generatedConversions) name false = false := hG
  rw [performConversions_eq_finish env pathPrefix st media [name] bytes img h1 h2 hb hd]
  simp only [performConversionsFinish, performConversionsLoop, hG', ht, hS,
    Bool.false_eq_true, if_false, hRepo]
  set st2 : Store := storeSet st media.conversionsDisk
    (getPathForConversion pathPrefix media name)
    (encodeForFile env media.fileName timg) with hst2
  set media1 : Media := { media with
    generatedConversions :=
      some (marshalBoolMap (insertA (readBoolMapFresh media.generatedConversions) name true))
    updatedAt := env.now } with hm1
  have hdisk1 : media1.disk = media.disk := rfl
  have hgp : getPath pathPrefix media1 = getPath pathPrefix media := rfl
  have h1b : hasDisk env media1.disk = true := h1
  have h2b : hasDisk env media1.conversionsDisk = true := h2
  have hgc1 : readBoolMapFresh media1.generatedConversions
      = insertA (readBoolMapFresh media.generatedConversions) name true := by
    rw [hm1]
    exact readBoolMapFresh_marshal _
  have hb2 : storeGet st2 media1.disk (getPath pathPrefix media1) = some bytes := by
    rw [hdisk1, hgp, hst2, storeGet_set_ne _ _ _ _ _ _ hpath]
    exact hb
  rw [performConversions_eq_finish env pathPrefix st2 media1 [name] bytes img h1b h2b hb2 hd]
  simp only [performConversionsFinish, performConversionsLoop, hgc1,
    lookupD_insertA_self, if_true, hRepo, Bool.false_eq_true, if_false]
  refine ⟨trivial, trivial, ?_, ?_, ?_, ?_, ?_, trivial⟩
  · simp [gcMarked, hgc1, lookupD_insertA_self]
  · simp [gcMarked, readBoolMapFresh_marshal, lookupD_insertA_self]
  · simp [List.countP_cons, List.countP_nil, isArtifactStore]
  · simp [List.countP_cons, List.countP_nil, isTransform]
  · simp [List.countP_cons, List.countP_nil, isWrite]

/-- C3 witness: the fully co-operative environment on `m1`. -/
theorem conversion_generation_idempotent_witness :
    (performConversions env1 "media" st1 m1 ["thumbnail"]).error = none ∧
    (performConversions env1 "media"
        (performConversions env1 "media" st1 m1 ["thumbnail"]).store
        (performConversions env1 "media" st1 m1 ["thumbnail"]).media ["thumbnail"]).events.countP
      isTransform = 0 := by
  have h := conversion_generation_idempotent env1 "media" st1 m1 "thumbnail" [1, 2, 3] 1 2
    (by decide) (by decide) (by decide) (by decide) (by decide) (by decide) (by decide)
    (fun m => rfl) (by decide)
  exact ⟨h.1, h.2.2.2.2.2.1⟩

/-! ## C6 — the derived-artifact index grows monotonically -/

/-- The `PerformConversions` loop never unmarks an entry. -/
theorem pcLoop_mono (env : Env) (pathPrefix : String) (media : Media) (img : Image)
    (names : List String) :
    ∀ (gc : List (String × Bool)) (st : Store) (n : String),
      lookupD gc n false = true →
      lookupD (performConversionsLoop env pathPrefix media img names gc st).1 n false
        = true := by
  induction names with
  | nil => exact fun gc st n h => h
  | cons name rest ih =>
    intro gc st n h
    simp only [performConversionsLoop]
    split
    · exact ih gc st n h
    · split
      · exact ih gc st n h
      · split
        · exact ih gc st n h
        · apply ih
          by_cases hn : n = name
          · subst hn
            rw [lookupD_insertA_self]
          · rw [lookupD_insertA_ne _ _ _ _ _ hn]
            exact h

/-- The inner width loop never unmarks a width. -/
theorem rwLoop_mono (env : Env) (pathPrefix : String) (media : Media) (img : Image)
    (name : String) (ws : List Int) :
    ∀ (wm : List (String × Bool)) (st : Store) (k : String),
      lookupD wm k false = true →
      lookupD (respWidthLoop env pathPrefix media img name ws wm st).1 k false = true := by
  induction ws with
  | nil => exact fun wm st k h => h
  | cons w rest ih =>
    intro wm st k h
    simp only [respWidthLoop]
    split
    · exact ih wm st k h
    · split
      · exact ih wm st k h
      · split
        · exact ih wm st k h
        · apply ih
          by_cases hk : k = intToString w
          · subst hk
            rw [lookupD_insertA_self]
          · rw [lookupD_insertA_ne _ _ _ _ _ hk]
            exact h

/-- The outer responsive loop never unmarks a name–width pair. -/
theorem rnLoop_mono (env : Env) (pathPrefix : String) (media : Media) (img : Image)
    (names : List String) :
    ∀ (ri : List (String × List (String × Bool))) (st : Store) (c w : String),
      lookupD (lookupD ri c []) w false = true →
      lookupD (lookupD (respNameLoop env pathPrefix media img names ri st).1 c []) w false
        = true := by
  induction names with
  | nil => exact fun ri st c w h => h
  | cons name rest ih =>
    intro ri st c w h
    simp only [respNameLoop]
    split
    · exact ih ri st c w h
    · rename_i rc _
      apply ih
      by_cases hc : c = name
      · subst hc
        rw [lookupD_insertA_self]
        exact rwLoop_mono env pathPrefix media img c rc.widths _ _ w h
      · rw [lookupD_insertA_ne _ _ _ _ _ hc]
        exact h

/-- C6: the derived-artifact index grows monotonically — every
conversion name marked in a record's index before a
`PerformConversions` call, and every name–width pair marked before a
`GenerateResponsiveImages` call, is still marked in the index carried
by the record those calls produce; entries are only added, never
removed. -/
theorem derived_index_monotone (env : Env) (pathPrefix : String) (st : Store) (media : Media)
    (names : List String) :
    (∀ n, gcMarked media n = true →
      gcMarked (performConversions env pathPrefix st media names).media n = true) ∧
    (∀ c w, riMarked media c w = true →
      riMarked (generateResponsiveImages env pathPrefix st media names).media c w = true) := by
  constructor
  · intro n h
    unfold performConversions
    split
    · exact h
    · split
      · exact h
      · split
        · exact h
        · rename_i bytes hbeq
          split
          · exact h
          · rename_i img himgeq
            simp only [performConversionsFinish]
            split
            all_goals
              simp only [gcMarked, readBoolMapFresh_marshal]
              exact pcLoop_mono env pathPrefix media img names _ _ n h
  · intro c w h
    unfold generateResponsiveImages
    split
    · exact h
    · split
      · exact h
      · split
        · exact h
        · rename_i bytes hbeq
          split
          · exact h
          · rename_i img himgeq
            simp only [generateResponsiveImagesFinish]
            split
            all_goals
              simp only [riMarked, readNestedBoolMapFresh_marshal]
              exact rnLoop_mono env pathPrefix media img names _ _ c w h

/-- C6 witness: the pre-existing entries survive a generation pass. -/
theorem derived_index_monotone_witness :
    gcMarked m6 "old" = true ∧
    gcMarked (performConversions env1 "media" st1 m6 ["thumbnail"]).media "old" = true ∧
    riMarked m6 "thumb" "99" = true ∧
    riMarked (generateResponsiveImages env1 "media" st1 m6 ["thumb"]).media "thumb" "99"
      = true :=
  ⟨by decide,
    (derived_index_monotone env1 "media" st1 m6 ["thumbnail"]).1 "old" (by decide),
    by decide,
    (derived_index_monotone env1 "media" st1 m6 ["thumb"]).2 "thumb" "99" (by decide)⟩

/-! ## C5 — metadata save precedes any storage write -/

/-- C5: in every ingestion variant, the repository save that assigns
the record's ID completes successfully before any storage write of the
original is attempted: when the repository fails every insert (every
save of a record whose ID is still zero), each variant returns an error
with no media record, and its event trace contains no storage write at
all. -/
theorem metadata_save_precedes_storage_write (env : Env) (lib : Lib) (st : Store)
    (urlStr filePath sourceDisk sourcePath targetDisk collection : String)
    (options : List OptFn)
    (h : ∀ m, m.id = 0 → env.repoSaveFails m = true) :
    ((addMediaFromURL env lib st urlStr collection options).error ≠ none ∧
      (addMediaFromURL env lib st urlStr collection options).media = none ∧
      (addMediaFromURL env lib st urlStr collection options).events.countP isWrite = 0) ∧
    ((addMediaFromDisk env lib st filePath collection options).error ≠ none ∧
      (addMediaFromDisk env lib st filePath collection options).media = none ∧
      (addMediaFromDisk env lib st filePath collection options).events.countP isWrite = 0) ∧
    ((addMediaFromDiskToDisk env lib st sourceDisk sourcePath targetDisk collection
        options).error ≠ none ∧
      (addMediaFromDiskToDisk env lib st sourceDisk sourcePath targetDisk collection
        options).media = none ∧
      (addMediaFromDiskToDisk env lib st sourceDisk sourcePath targetDisk collection
        options).events.countP isWrite = 0) := by
  refine ⟨?_, ?_, ?_⟩
  · simp only [addMediaFromURL]
    split
    · exact ⟨by simp, rfl, rfl⟩
    · split
      · exact ⟨by simp, rfl, rfl⟩
      · rw [if_pos (h _ rfl)]
        exact ⟨by simp, rfl, rfl⟩
  · simp only [addMediaFromDisk]
    split
    · exact ⟨by simp, rfl, rfl⟩
    · split
      · exact ⟨by simp, rfl, rfl⟩
      · rw [if_pos (h _ rfl)]
        exact ⟨by simp, rfl, rfl⟩
  · simp only [addMediaFromDiskToDisk]
    split
    · exact ⟨by simp, rfl, rfl⟩
    · split
      · exact ⟨by simp, rfl, rfl⟩
      · split
        · exact ⟨by simp, rfl, rfl⟩
        · rw [if_pos (h _ rfl)]
          exact ⟨by simp, rfl, rfl⟩

/-- C5 witness: with the insert-rejecting repository, ingestion from a
URL fails with no storage write. -/
theorem metadata_save_precedes_storage_write_witness :
    (∀ m : Media, m.id = 0 → env5.repoSaveFails m = true) ∧
    (addMediaFromURL env5 lib1 st1 "https://example.com/photo.png" "gallery" []).error
      ≠ none ∧
    (addMediaFromURL env5 lib1 st1 "https://example.com/photo.png" "gallery" []).events.countP
      isWrite = 0 := by
  have h : ∀ m : Media, m.id = 0 → env5.repoSaveFails m = true := by
    intro m hm
    simp [env5, hm]
  have h2 := metadata_save_precedes_storage_write env5 lib1 st1
    "https://example.com/photo.png" "x" "local" "p" "conv" "gallery" [] h
  exact ⟨h, h2.1.1, h2.1.2.2⟩

/-! ## C7 — move semantics -/

/-- C7: a successful `MoveMediaToDisk` onto a different registered disk
returns a new record with the freshly generated UUID and the
repository-assigned new ID (both different from the source record's),
whose disk is the target disk and whose MIME type is re-detected from
the content rather than copied from the source record; the bytes stored
at the new record's path on the target disk equal the source object's
pre-move bytes, and the source object is gone from the source disk. -/
theorem move_semantics (env : Env) (lib : Lib) (st : Store) (media : Media)
    (targetDisk : String) (content : Bytes)
    (hsd : hasDisk env media.disk = true)
    (htd : hasDisk env targetDisk = true)
    (hne : ¬ targetDisk = media.disk)
    (hex : storeGet st media.disk (getPath lib.pathGenPrefix media) = some content)
    (hsave : ∀ p, env.saveFails targetDisk p = false)
    (hrepo : ∀ m, env.repoSaveFails m = false)
    (hdel : ∀ p, env.deleteFails media.disk p = false)
    (hid : env.nextId ≠ media.id)
    (huuid : env.freshUUID ≠ media.uuid) :
    ∃ moved, (moveMediaToDisk env lib st media targetDisk).media = some moved ∧
      (moveMediaToDisk env lib st media targetDisk).error = none ∧
      moved.uuid = env.freshUUID ∧ moved.uuid ≠ media.uuid ∧
      moved.id = env.nextId ∧ moved.id ≠ media.id ∧
      moved.disk = targetDisk ∧
      moved.mimeType = detectMime env content media.fileName ∧
      storeGet (moveMediaToDisk env lib st media targetDisk).store targetDisk
        (getPath lib.pathGenPrefix moved) = some content ∧
      storeGet (moveMediaToDisk env lib st media targetDisk).store media.disk
        (getPath lib.pathGenPrefix media) = none := by
  simp only [moveMediaToDisk]
  rw [if_neg (by simp [hsd]), if_neg (by simp [htd]), hex]
  simp only [hrepo, hsave, hdel, Bool.false_eq_true, if_false]
  refine ⟨_, rfl, by trivial, by trivial, huuid, by trivial, hid, by trivial, by trivial,
    ?_, ?_⟩
  · rw [storeGet_del_ne]
    · exact storeGet_set_self _ _ _ _
    · intro hh
      exact hne (congrArg Prod.fst hh).symm
  · exact storeGet_del_self _ _ _

/-- C7 witness: moving `m1` from `"local"` to `"conv"` in the
co-operative environment. -/
theorem move_semantics_witness :
    hasDisk env1 m1.disk = true ∧ hasDisk env1 "conv" = true ∧
    ¬ ("conv" : String) = m1.disk ∧
    (∃ moved, (moveMediaToDisk env1 lib1 st1 m1 "conv").media = some moved ∧
      (moveMediaToDisk env1 lib1 st1 m1 "conv").error = none ∧
      moved.uuid = env1.freshUUID ∧ moved.uuid ≠ m1.uuid ∧
      moved.id = env1.nextId ∧ moved.id ≠ m1.id ∧
      moved.disk = "conv" ∧
      moved.mimeType = detectMime env1 [1, 2, 3] m1.fileName ∧
      storeGet (moveMediaToDisk env1 lib1 st1 m1 "conv").store "conv"
        (getPath lib1.pathGenPrefix moved) = some [1, 2, 3] ∧
      storeGet (moveMediaToDisk env1 lib1 st1 m1 "conv").store m1.disk
        (getPath lib1.pathGenPrefix m1) = none) :=
  ⟨by decide, by decide, by decide,
    move_semantics env1 lib1 st1 m1 "conv" [1, 2, 3] (by decide) (by decide) (by decide)
      (by decide) (fun p => rfl) (fun m => rfl) (fun p => rfl) (by decide) (by decide)⟩

/-! ## C8 — path derivation: split/join/clean lemmas -/

theorem plainSeg_iff (seg : List Char) :
    plainSeg seg = true ↔ seg ≠ [] ∧ seg ≠ ['.'] ∧ seg ≠ ['.', '.'] := by
  simp [plainSeg, not_or, and_assoc]

theorem splitSlash_ne_nil (l : List Char) : splitSlash l ≠ [] := by
  cases l with
  | nil => simp [splitSlash]
  | cons c cs =>
    simp only [splitSlash]
    split
    · simp
    · cases h : splitSlash cs <;> simp

theorem splitSlash_append (a b : List Char) :
    splitSlash (a ++ '/' :: b) = splitSlash a ++ splitSlash b := by
  induction a with
  | nil => simp [splitSlash]
  | cons c cs ih =>
    by_cases hc : c = '/'
    · simp only [List.cons_append, splitSlash, if_pos hc]
      exact congrArg (List.cons []) ih
    · obtain ⟨s, ss, hss⟩ := List.exists_cons_of_ne_nil (splitSlash_ne_nil cs)
      simp only [List.cons_append, splitSlash, if_neg hc]
      rw [show splitSlash (cs.append ('/' :: b)) = splitSlash cs ++ splitSlash b from ih, hss]
      simp

theorem splitSlash_no_slash (l : List Char) (h : '/' ∉ l) : splitSlash l = [l] := by
  induction l with
  | nil => rfl
  | cons c cs ih =>
    simp only [splitSlash]
    rw [if_neg (by rintro rfl; exact h (List.mem_cons_self _ _))]
    rw [ih fun hm => h (List.mem_cons_of_mem _ hm)]

theorem joinSlash_splitSlash (l : List Char) : joinSlash (splitSlash l) = l := by
  induction l with
  | nil => rfl
  | cons c cs ih =>
    obtain ⟨s, ss, hss⟩ := List.exists_cons_of_ne_nil (splitSlash_ne_nil cs)
    by_cases hc : c = '/'
    · subst hc
      simp only [splitSlash, if_pos rfl, hss]
      simp only [joinSlash]
      rw [← hss, ih]
      simp
    · simp only [splitSlash, if_neg hc, hss]
      cases ss with
      | nil =>
        simp only [joinSlash]
        rw [hss] at ih
        simp only [joinSlash] at ih
        simp [ih]
      | cons r rs =>
        simp only [joinSlash]
        rw [hss] at ih
        simp only [joinSlash] at ih
        simp [ih]

theorem joinSlash_append (xs ys : List (List Char)) (hx : xs ≠ []) (hy : ys ≠ []) :
    joinSlash (xs ++ ys) = joinSlash xs ++ '/' :: joinSlash ys := by
  induction xs with
  | nil => exact absurd rfl hx
  | cons x xs' ih =>
    cases xs' with
    | nil =>
      obtain ⟨y, ys', hys⟩ := List.exists_cons_of_ne_nil hy
      subst hys
      simp [joinSlash]
    | cons x2 xs'' =>
      have h2 := ih (by simp)
      simp only [List.cons_append] at h2 ⊢
      simp only [joinSlash]
      rw [h2]
      simp [List.append_assoc]

theorem joinSlash_ne_nil (s : List Char) (ss : List (List Char)) (h : s ≠ []) :
    joinSlash (s :: ss) ≠ [] := by
  cases ss with
  | nil => simpa [joinSlash] using h
  | cons r rs => simp [joinSlash]

theorem foldl_cleanPush_plain (r : Bool) (segs : List (List Char)) :
    ∀ acc, (∀ seg ∈ segs, seg = [] ∨ plainSeg seg = true) →
      segs.foldl (cleanPush r) acc
        = (segs.filter fun s => !s.isEmpty).reverse ++ acc := by
  induction segs with
  | nil => intro acc _; simp
  | cons seg rest ih =>
    intro acc hplain
    have hrest : ∀ s ∈ rest, s = [] ∨ plainSeg s = true :=
      fun s hs => hplain s (List.mem_cons_of_mem _ hs)
    rcases hplain seg (List.mem_cons_self _ _) with he | hp
    · subst he
      simp only [List.foldl_cons, List.filter_cons]
      rw [show cleanPush r acc [] = acc from by simp [cleanPush]]
      simpa using ih acc hrest
    · obtain ⟨h1, h2, h3⟩ := (plainSeg_iff seg).mp hp
      have hpush : cleanPush r acc seg = seg :: acc := by
        simp only [cleanPush]
        rw [if_neg (by simp [h1, h2]), if_neg h3]
      simp only [List.foldl_cons, List.filter_cons, hpush]
      rw [show (!seg.isEmpty) = true from by
        cases seg with
        | nil => exact absurd rfl h1
        | cons a b => rfl]
      rw [ih (seg :: acc) hrest]
      simp

theorem splitSlash_rooted (cs : List Char) :
    (splitSlash cs).head? = some [] ↔ (cs = [] ∨ cs.head? = some '/') := by
  cases cs with
  | nil => simp [splitSlash]
  | cons c cs' =>
    by_cases hc : c = '/'
    · subst hc
      simp [splitSlash]
    · obtain ⟨s, ss, hss⟩ := List.exists_cons_of_ne_nil (splitSlash_ne_nil cs')
      simp [splitSlash, if_neg hc, hss, hc]

theorem goCleanChars_plain (cs : List Char) (segs : List (List Char))
    (hs : splitSlash cs = segs)
    (hplain : ∀ seg ∈ segs, seg = [] ∨ plainSeg seg = true)
    (hfirst : segs.head? ≠ some [])
    (hfilter : (segs.filter fun s => !s.isEmpty) ≠ []) :
    goCleanChars cs = joinSlash (segs.filter fun s => !s.isEmpty) := by
  have hnotrooted : ¬ (cs = [] ∨ cs.head? = some '/') := by
    intro hor
    exact hfirst (hs ▸ (splitSlash_rooted cs).mpr hor)
  have hne : cs ≠ [] := fun hh => hnotrooted (Or.inl hh)
  have hhead : ¬ cs.head? = some '/' := fun hh => hnotrooted (Or.inr hh)
  obtain ⟨s0, ss0, hseg⟩ := List.exists_cons_of_ne_nil (hs ▸ splitSlash_ne_nil cs)
  simp only [goCleanChars, if_neg hne, hs]
  rw [show decide (cs.head? = some '/') = false from by simp [hhead]]
  rw [foldl_cleanPush_plain false segs [] hplain]
  simp only [List.append_nil, List.reverse_reverse, Bool.false_eq_true, if_false]
  obtain ⟨f0, fs0, hf⟩ := List.exists_cons_of_ne_nil hfilter
  have hf0 : f0 ≠ [] := by
    have hmem : f0 ∈ segs.filter fun s => !s.isEmpty := by
      rw [hf]
      exact List.mem_cons_self _ _
    have hpred := List.of_mem_filter hmem
    intro hh
    rw [hh] at hpred
    simp at hpred
  rw [hf, if_neg hhead, if_neg (joinSlash_ne_nil f0 fs0 hf0)]

/-! ## C8 — digits, extensions, suffixes -/

theorem stringDataEq {a b : String} (h : a.data = b.data) : a = b := by
  cases a
  cases b
  exact congrArg String.mk h

theorem natToCharsAux_digits :
    ∀ (fuel n : Nat), ∀ c ∈ natToCharsAux fuel n, ∃ d, d < 10 ∧ c = digitChar d := by
  intro fuel
  induction fuel with
  | zero => intro n c hc; simp [natToCharsAux] at hc
  | succ f ih =>
    intro n c hc
    cases n with
    | zero => simp [natToCharsAux] at hc
    | succ m =>
      simp only [natToCharsAux] at hc
      rcases List.mem_append.mp hc with h | h
      · exact ih _ c h
      · simp only [List.mem_singleton] at h
        exact ⟨(m + 1) % 10, Nat.mod_lt _ (by norm_num), h⟩

theorem digitChar_ne (d : Nat) (hd : d < 10) :
    digitChar d ≠ '/' ∧ digitChar d ≠ '.' := by
  interval_cases d <;> exact ⟨by decide, by decide⟩

theorem natToString_plain (n : Nat) :
    plainSeg (natToString n).data = true ∧ '/' ∉ (natToString n).data := by
  by_cases h0 : n = 0
  · subst h0
    exact ⟨by decide, by decide⟩
  · have hdata : (natToString n).data = natToCharsCore n := by
      simp [natToString, h0]
    have hchars : ∀ c ∈ (natToString n).data, ∃ d, d < 10 ∧ c = digitChar d := by
      intro c hc
      rw [hdata] at hc
      exact natToCharsAux_digits n n c hc
    have hnoslash : '/' ∉ (natToString n).data := by
      intro hc
      obtain ⟨d, hd, he⟩ := hchars _ hc
      exact (digitChar_ne d hd).1 he.symm
    have hnodot : '.' ∉ (natToString n).data := by
      intro hc
      obtain ⟨d, hd, he⟩ := hchars _ hc
      exact (digitChar_ne d hd).2 he.symm
    refine ⟨(plainSeg_iff _).mpr ⟨?_, ?_, ?_⟩, hnoslash⟩
    · rw [hdata]
      obtain ⟨m, rfl⟩ := Nat.exists_eq_succ_of_ne_zero h0
      simp [natToCharsCore, natToCharsAux]
    · intro hh
      exact hnodot (by rw [hh]; exact List.mem_cons_self _ _)
    · intro hh
      exact hnodot (by rw [hh]; exact List.mem_cons_self _ _)

theorem extScan_sub :
    ∀ (l acc : List Char), ∀ c ∈ extScan l acc, c ∈ l ∨ c ∈ acc := by
  intro l
  induction l with
  | nil => intro acc c hc; simp [extScan] at hc
  | cons a rest ih =>
    intro acc c hc
    simp only [extScan] at hc
    by_cases h1 : a = '/'
    · rw [if_pos h1] at hc
      simp at hc
    · rw [if_neg h1] at hc
      by_cases h2 : a = '.'
      · rw [if_pos h2] at hc
        rcases List.mem_cons.mp hc with rfl | h
        · exact Or.inl (List.mem_cons_self _ _)
        · exact Or.inr h
      · rw [if_neg h2] at hc
        rcases ih (a :: acc) c hc with h | h
        · exact Or.inl (List.mem_cons_of_mem _ h)
        · rcases List.mem_cons.mp h with rfl | h
          · exact Or.inl (List.mem_cons_self _ _)
          · exact Or.inr h

theorem extScan_suffix (l : List Char) :
    ∀ acc, extScan l acc <:+ (l.reverse ++ acc) := by
  induction l with
  | nil => intro acc; simp [extScan]
  | cons a rest ih =>
    intro acc
    simp only [extScan]
    by_cases h1 : a = '/'
    · rw [if_pos h1]
      exact List.nil_suffix
    · rw [if_neg h1]
      by_cases h2 : a = '.'
      · rw [if_pos h2]
        subst h2
        rw [List.reverse_cons, List.append_assoc]
        simp
      · rw [if_neg h2]
        rw [List.reverse_cons, List.append_assoc]
        simpa using ih (a :: acc)

theorem goExt_data_suffix (s : String) : (goExt s).data <:+ s.data := by
  have h := extScan_suffix s.data.reverse []
  simpa [goExt] using h

theorem trimSuffix_append_suffix (cs suf : List Char) (h : suf <:+ cs) :
    trimSuffixList cs suf ++ suf = cs := by
  obtain ⟨t, ht⟩ := h
  simp only [trimSuffixList, if_pos (show suf <:+ cs from ⟨t, ht⟩)]
  rw [← ht, List.length_append, Nat.add_sub_cancel, List.take_left]

theorem trimSuffix_subset (cs suf : List Char) :
    ∀ c ∈ trimSuffixList cs suf, c ∈ cs := by
  intro c hc
  simp only [trimSuffixList] at hc
  split at hc
  · exact List.take_subset _ _ hc
  · exact hc

/-- The stem–extension split of `filepath.Ext` / `strings.TrimSuffix`
recomposes to the original name. -/
theorem stem_append_ext (s : String) :
    goTrimSuffix s (goExt s) ++ goExt s = s := by
  apply stringDataEq
  have h := trimSuffix_append_suffix s.data (goExt s).data (goExt_data_suffix s)
  simpa [goTrimSuffix, String.data_append] using h

theorem bnot_isEmpty_of_ne {l : List Char} (h : l ≠ []) : (!l.isEmpty) = true := by
  cases l with
  | nil => exact absurd rfl h
  | cons a b => rfl

/-! ## C8 — path evaluation -/

/-- `GetPath` on plain segments is plain concatenation. -/
theorem getPath_eval (pre : String) (m : Media)
    (hpre : ∀ seg ∈ splitSlash pre.data, plainSeg seg = true)
    (hfn : plainSeg m.fileName.data = true) (hfns : '/' ∉ m.fileName.data) :
    getPath pre m = pre ++ "/" ++ natToString m.id ++ "/" ++ m.fileName := by
  obtain ⟨hI, hIs⟩ := natToString_plain m.id
  have hdata : (getBasePath pre m ++ "/" ++ m.fileName).data
      = pre.data ++ '/' :: ((natToString m.id).data ++ '/' :: ('/' :: m.fileName.data)) := by
    simp [getBasePath, String.data_append, List.append_assoc]
  have hsplit : splitSlash (getBasePath pre m ++ "/" ++ m.fileName).data
      = splitSlash pre.data ++ [(natToString m.id).data, [], m.fileName.data] := by
    rw [hdata, splitSlash_append pre.data, splitSlash_append (natToString m.id).data,
      splitSlash_no_slash _ hIs,
      show splitSlash ('/' :: m.fileName.data) = [] :: splitSlash m.fileName.data from by
        simp [splitSlash],
      splitSlash_no_slash _ hfns]
    simp
  have hplain : ∀ seg ∈ splitSlash pre.data
      ++ [(natToString m.id).data, [], m.fileName.data], seg = [] ∨ plainSeg seg = true := by
    intro seg hseg
    rcases List.mem_append.mp hseg with h | h
    · exact Or.inr (hpre seg h)
    · simp only [List.mem_cons, List.not_mem_nil, or_false] at h
      rcases h with rfl | rfl | rfl
      · exact Or.inr hI
      · exact Or.inl rfl
      · exact Or.inr hfn
  have hfirst : (splitSlash pre.data
      ++ [(natToString m.id).data, [], m.fileName.data]).head? ≠ some [] := by
    obtain ⟨s, ss, hss⟩ := List.exists_cons_of_ne_nil (splitSlash_ne_nil pre.data)
    rw [hss]
    intro hh
    simp only [List.cons_append, List.head?_cons, Option.some.injEq] at hh
    have hsplain := hpre s (by rw [hss]; exact List.mem_cons_self _ _)
    subst hh
    simp [plainSeg] at hsplain
  have hfilter_eq : ((splitSlash pre.data
        ++ [(natToString m.id).data, [], m.fileName.data]).filter fun s => !s.isEmpty)
      = splitSlash pre.data ++ [(natToString m.id).data, m.fileName.data] := by
    rw [List.filter_append]
    congr 1
    · exact List.filter_eq_self.mpr fun seg hseg =>
        bnot_isEmpty_of_ne ((plainSeg_iff seg).mp (hpre seg hseg)).1
    · simp [List.filter_cons, bnot_isEmpty_of_ne ((plainSeg_iff _).mp hI).1,
        bnot_isEmpty_of_ne ((plainSeg_iff _).mp hfn).1]
  have hfilter_ne : ((splitSlash pre.data
      ++ [(natToString m.id).data, [], m.fileName.data]).filter fun s => !s.isEmpty) ≠ [] := by
    rw [hfilter_eq]
    simp
  apply stringDataEq
  have hmain := goCleanChars_plain _ _ hsplit hplain hfirst hfilter_ne
  calc (getPath pre m).data
      = goCleanChars (getBasePath pre m ++ "/" ++ m.fileName).data := rfl
    _ = joinSlash ((splitSlash pre.data
        ++ [(natToString m.id).data, [], m.fileName.data]).filter fun s => !s.isEmpty) :=
      hmain
    _ = joinSlash (splitSlash pre.data ++ [(natToString m.id).data, m.fileName.data]) := by
      rw [hfilter_eq]
    _ = pre.data ++ '/' :: ((natToString m.id).data ++ '/' :: m.fileName.data) := by
      rw [joinSlash_append _ _ (splitSlash_ne_nil _) (by simp), joinSlash_splitSlash]
      simp [joinSlash]
    _ = (pre ++ "/" ++ natToString m.id ++ "/" ++ m.fileName).data := by
      simp [String.data_append, List.append_assoc]

/-- `GetPathForConversion` on plain segments: the `{c}/conversions/`
segments are inserted before the transformed file name. -/
theorem getPathForConversion_eval (pre c : String) (m : Media)
    (hpre : ∀ seg ∈ splitSlash pre.data, plainSeg seg = true)
    (_hfn : plainSeg m.fileName.data = true) (hfns : '/' ∉ m.fileName.data)
    (hc : plainSeg c.data = true) (hcs : '/' ∉ c.data) :
    getPathForConversion pre m c
      = pre ++ "/" ++ natToString m.id ++ "/" ++ c ++ "/conversions/"
        ++ (goTrimSuffix m.fileName (goExt m.fileName) ++ "-" ++ c ++ goExt m.fileName) := by
  obtain ⟨hI, hIs⟩ := natToString_plain m.id
  have hexts : ∀ ch ∈ (goExt m.fileName).data, ch ∈ m.fileName.data :=
    fun ch hch => (goExt_data_suffix m.fileName).subset hch
  have hstems : ∀ ch ∈ (goTrimSuffix m.fileName (goExt m.fileName)).data,
      ch ∈ m.fileName.data :=
    fun ch hch => trimSuffix_subset _ _ ch hch
  have hnfs : '/'
      ∉ (goTrimSuffix m.fileName (goExt m.fileName) ++ "-" ++ c ++ goExt m.fileName).data := by
    intro hch
    simp only [String.data_append, List.mem_append] at hch
    rcases hch with ((hh | hh) | hh) | hh
    · exact hfns (hstems _ hh)
    · revert hh
      decide
    · exact hcs hh
    · exact hfns (hexts _ hh)
  have hdash : '-'
      ∈ (goTrimSuffix m.fileName (goExt m.fileName) ++ "-" ++ c ++ goExt m.fileName).data := by
    simp [String.data_append]
  have hnfplain : plainSeg
      (goTrimSuffix m.fileName (goExt m.fileName) ++ "-" ++ c ++ goExt m.fileName).data
      = true := by
    refine (plainSeg_iff _).mpr ⟨?_, ?_, ?_⟩
    · intro hh
      rw [hh] at hdash
      exact absurd hdash (by decide)
    · intro hh
      rw [hh] at hdash
      exact absurd hdash (by decide)
    · intro hh
      rw [hh] at hdash
      exact absurd hdash (by decide)
  have hk : "/conversions/".data = '/' :: ("conversions".data ++ ['/']) := rfl
  have hdata : (getBasePath pre m ++ "/" ++ c ++ "/conversions/"
        ++ (goTrimSuffix m.fileName (goExt m.fileName) ++ "-" ++ c ++ goExt m.fileName)).data
      = pre.data ++ '/' :: ((natToString m.id).data ++ '/' :: ('/' :: (c.data ++ '/' ::
        ("conversions".data ++ '/'
          :: (goTrimSuffix m.fileName (goExt m.fileName)
            ++ "-" ++ c ++ goExt m.fileName).data)))) := by
    simp [getBasePath, String.data_append, hk, List.append_assoc]
  have hsplit : splitSlash (getBasePath pre m ++ "/" ++ c ++ "/conversions/"
        ++ (goTrimSuffix m.fileName (goExt m.fileName) ++ "-" ++ c ++ goExt m.fileName)).data
      = splitSlash pre.data ++ [(natToString m.id).data, [], c.data, "conversions".data,
        (goTrimSuffix m.fileName (goExt m.fileName) ++ "-" ++ c ++ goExt m.fileName).data] := by
    rw [hdata, splitSlash_append pre.data, splitSlash_append (natToString m.id).data,
      show splitSlash ('/' :: (c.data ++ '/' :: ("conversions".data ++ '/'
          :: (goTrimSuffix m.fileName (goExt m.fileName)
            ++ "-" ++ c ++ goExt m.fileName).data)))
        = [] :: splitSlash (c.data ++ '/' :: ("conversions".data ++ '/'
          :: (goTrimSuffix m.fileName (goExt m.fileName)
            ++ "-" ++ c ++ goExt m.fileName).data)) from by simp [splitSlash],
      splitSlash_append c.data, splitSlash_append "conversions".data,
      splitSlash_no_slash _ hIs, splitSlash_no_slash _ hcs,
      splitSlash_no_slash _ (show '/' ∉ "conversions".data from by decide),
      splitSlash_no_slash _ hnfs]
    simp
  have hplain : ∀ seg ∈ splitSlash pre.data ++ [(natToString m.id).data, [], c.data,
      "conversions".data,
      (goTrimSuffix m.fileName (goExt m.fileName) ++ "-" ++ c ++ goExt m.fileName).data],
      seg = [] ∨ plainSeg seg = true := by
    intro seg hseg
    rcases List.mem_append.mp hseg with h | h
    · exact Or.inr (hpre seg h)
    · simp only [List.mem_cons, List.not_mem_nil, or_false] at h
      rcases h with rfl | rfl | rfl | rfl | rfl
      · exact Or.inr hI
      · exact Or.inl rfl
      · exact Or.inr hc
      · exact Or.inr (by decide)
      · exact Or.inr hnfplain
  have hfirst : (splitSlash pre.data ++ [(natToString m.id).data, [], c.data,
      "conversions".data,
      (goTrimSuffix m.fileName (goExt m.fileName)
        ++ "-" ++ c ++ goExt m.fileName).data]).head? ≠ some [] := by
    obtain ⟨s, ss, hss⟩ := List.exists_cons_of_ne_nil (splitSlash_ne_nil pre.data)
    rw [hss]
    intro hh
    simp only [List.cons_append, List.head?_cons, Option.some.injEq] at hh
    have hsplain := hpre s (by rw [hss]; exact List.mem_cons_self _ _)
    subst hh
    simp [plainSeg] at hsplain
  have hfilter_eq : ((splitSlash pre.data ++ [(natToString m.id).data, [], c.data,
        "conversions".data,
        (goTrimSuffix m.fileName (goExt m.fileName)
          ++ "-" ++ c ++ goExt m.fileName).data]).filter fun s => !s.isEmpty)
      = splitSlash pre.data ++ [(natToString m.id).data, c.data, "conversions".data,
        (goTrimSuffix m.fileName (goExt m.fileName)
          ++ "-" ++ c ++ goExt m.fileName).data] := by
    rw [List.filter_append]
    congr 1
    · exact List.filter_eq_self.mpr fun seg hseg =>
        bnot_isEmpty_of_ne ((plainSeg_iff seg).mp (hpre seg hseg)).1
    · simp [List.filter_cons, bnot_isEmpty_of_ne ((plainSeg_iff _).mp hI).1,
        bnot_isEmpty_of_ne ((plainSeg_iff _).mp hc).1,
        bnot_isEmpty_of_ne ((plainSeg_iff _).mp hnfplain).1,
        bnot_isEmpty_of_ne (show "conversions".data ≠ [] from by decide)]
  have hfilter_ne : ((splitSlash pre.data ++ [(natToString m.id).data, [], c.data,
      "conversions".data,
      (goTrimSuffix m.fileName (goExt m.fileName)
        ++ "-" ++ c ++ goExt m.fileName).data]).filter fun s => !s.isEmpty) ≠ [] := by
    rw [hfilter_eq]
    simp
  apply stringDataEq
  have hmain := goCleanChars_plain _ _ hsplit hplain hfirst hfilter_ne
  calc (getPathForConversion pre m c).data
      = goCleanChars (getBasePath pre m ++ "/" ++ c ++ "/conversions/"
        ++ (goTrimSuffix m.fileName (goExt m.fileName)
          ++ "-" ++ c ++ goExt m.fileName)).data := rfl
    _ = joinSlash ((splitSlash pre.data ++ [(natToString m.id).data, [], c.data,
        "conversions".data,
        (goTrimSuffix m.fileName (goExt m.fileName)
          ++ "-" ++ c ++ goExt m.fileName).data]).filter fun s => !s.isEmpty) := hmain
    _ = joinSlash (splitSlash pre.data ++ [(natToString m.id).data, c.data,
        "conversions".data,
        (goTrimSuffix m.fileName (goExt m.fileName)
          ++ "-" ++ c ++ goExt m.fileName).data]) := by
      rw [hfilter_eq]
    _ = pre.data ++ '/' :: ((natToString m.id).data ++ '/' :: (c.data ++ '/' ::
        ("conversions".data ++ '/'
          :: (goTrimSuffix m.fileName (goExt m.fileName)
            ++ "-" ++ c ++ goExt m.fileName).data))) := by
      rw [joinSlash_append _ _ (splitSlash_ne_nil _) (by simp), joinSlash_splitSlash]
      simp [joinSlash]
    _ = (pre ++ "/" ++ natToString m.id ++ "/" ++ c ++ "/conversions/"
        ++ (goTrimSuffix m.fileName (goExt m.fileName)
          ++ "-" ++ c ++ goExt m.fileName)).data := by
      simp [String.data_append, hk, List.append_assoc]

/-- C8: path derivation is a pure deterministic function — on
well-formed segments `GetPath` equals the plain concatenation
`{prefix}/{id}/{fileName}`, so it depends on the prefix, ID and file
name alone and returns the same normalized key on every call — and
`GetPathForConversion(r, c)` differs from `GetPath(r)` exactly by
inserting the `{c}/conversions/` segments before the file name and
appending `-{c}` to the file name's stem before its extension; the stem
and extension recompose to the file name. -/
theorem path_derivation_pure (pre c : String) (m : Media)
    (hpre : ∀ seg ∈ splitSlash pre.data, plainSeg seg = true)
    (hfn : plainSeg m.fileName.data = true) (hfns : '/' ∉ m.fileName.data)
    (hc : plainSeg c.data = true) (hcs : '/' ∉ c.data) :
    getPath pre m = pre ++ "/" ++ natToString m.id ++ "/" ++ m.fileName ∧
    getPathForConversion pre m c
      = pre ++ "/" ++ natToString m.id ++ "/" ++ c ++ "/conversions/"
        ++ (goTrimSuffix m.fileName (goExt m.fileName) ++ "-" ++ c ++ goExt m.fileName) ∧
    goTrimSuffix m.fileName (goExt m.fileName) ++ goExt m.fileName = m.fileName :=
  ⟨getPath_eval pre m hpre hfn hfns,
    getPathForConversion_eval pre c m hpre hfn hfns hc hcs,
    stem_append_ext m.fileName⟩

/-- C8 witness: the spec's own example record. -/
theorem path_derivation_pure_witness :
    (∀ seg ∈ splitSlash "media".data, plainSeg seg = true) ∧
    getPath "media" m1 = "media/42/photo.png" ∧
    getPathForConversion "media" m1 "thumb" = "media/42/thumb/conversions/photo-thumb.png" := by
  have h := path_derivation_pure "media" "thumb" m1 (by decide) (by decide) (by decide)
    (by decide) (by decide)
  refine ⟨by decide, ?_, ?_⟩
  · rw [h.1]
    decide
  · rw [h.2.1]
    decide

end MediaLib
